import Mathlib

/-!
# Verification of the ColorCamp color library

Shallow embedding of the ColorCamp repository (Python) in Lean 4.

Numeric values are modelled with `ℚ` (Python floats / ints are used by the
source only for exact-representable arithmetic in the places the claims
touch; remaining float noise is below every tolerance the code compares
against).  Python exceptions are modelled with `Except Err`.

Sources embedded here:
* `colorcamp/conversions.py`          (hex_to_rgb, rgb_to_hex, rgb_to_hsl)
* `colorcamp/common/validators.py`    (the validators used by the claims)
* `colorcamp/color_space/_base_color.py`, `_hex.py`, `_rgb.py`, `_hsl.py`
* `colorcamp/groups/_scale.py`, `_palette.py`, `_map.py`
* `colorcamp/_camp.py`, `colorcamp/_color_metadata.py`
-/

namespace ColorCamp

instance instDecEqExcept {ε α : Type} [DecidableEq ε] [DecidableEq α] :
    DecidableEq (Except ε α) := fun x y =>
  match x, y with
  | .ok a, .ok b => decidable_of_iff (a = b) (by simp)
  | .error e, .error f => decidable_of_iff (e = f) (by simp)
  | .ok _, .error _ => isFalse (by simp)
  | .error _, .ok _ => isFalse (by simp)

/-- Python exception taxonomy used by the embedded code. -/
inductive Err where
  | numericInterval  -- NumericIntervalError
  | valueError       -- ValueError
  | typeError        -- TypeError
  | attributeError   -- AttributeError
  | fileExists       -- FileExistsError
  | fileNotFound     -- FileNotFoundError
  | keyError         -- KeyError
deriving DecidableEq, Repr

/-! ## Hex digits and hex-string formatting -/

/-- Value of a single hexadecimal digit, `int(c, 16)` on one character.
Characters outside `[0-9A-Fa-f]` have no value. -/
def hexDigitVal (c : Char) : Option Nat :=
  if '0'.toNat ≤ c.toNat ∧ c.toNat ≤ '9'.toNat then some (c.toNat - '0'.toNat)
  else if 'A'.toNat ≤ c.toNat ∧ c.toNat ≤ 'F'.toNat then some (c.toNat - 'A'.toNat + 10)
  else if 'a'.toNat ≤ c.toNat ∧ c.toNat ≤ 'f'.toNat then some (c.toNat - 'a'.toNat + 10)
  else none

def isHexDigit (c : Char) : Bool := (hexDigitVal c).isSome

/-- Total version of `hexDigitVal`; only applied to validated strings. -/
def hexVal (c : Char) : Nat := (hexDigitVal c).getD 0

/-- The hexadecimal digit character for `n < 16` (uppercase, as produced by
Python's `"{:X}"` format). -/
def hexDig (n : Nat) : Char :=
  if n < 10 then Char.ofNat ('0'.toNat + n) else Char.ofNat ('A'.toNat + (n - 10))

/-- Digits of `n` in base 16, uppercase (fuel-driven so that it reduces in
the kernel; `fuel = n` always suffices). -/
def natToHexAux : Nat → Nat → List Char
  | 0, n => [hexDig n]
  | fuel + 1, n =>
      if n < 16 then [hexDig n]
      else natToHexAux fuel (n / 16) ++ [hexDig (n % 16)]

/-- Digits of `n` in base 16, uppercase: Python `"{:X}".format(n)`. -/
def natToHexList (n : Nat) : List Char := natToHexAux n n

/-- Python `"{:X}".format(n)` (no padding). -/
def fmtX (n : Nat) : List Char := natToHexList n

/-- Python `"{:02X}".format(n)`: pad with zeros to at least two digits. -/
def fmt02X (n : Nat) : List Char :=
  let l := natToHexList n
  if l.length < 2 then '0' :: l else l

/-! ## Validators (`colorcamp/common/validators.py`) -/

/-- `HexStringValidator`: regex `^#([A-Fa-f0-9]{3}|[A-Fa-f0-9]{4}|[A-Fa-f0-9]{6}|[A-Fa-f0-9]{8})$`
(the empty-string check of `RegexValidator` is subsumed). -/
def hexStringValid (s : String) : Bool :=
  match s.data with
  | c :: rest =>
      c = '#' && rest.all isHexDigit &&
        (rest.length = 3 || rest.length = 4 || rest.length = 6 || rest.length = 8)
  | [] => false

/-- `FractionIntervalValidator` bound check: value in `[0, 1]`. -/
def inUnitInterval (q : ℚ) : Bool := 0 ≤ q && q ≤ 1

/-- `RGB256IntervalValidator` bound check: value in `[0, 255]`. -/
def inRGB256Interval (q : ℚ) : Bool := 0 ≤ q && q ≤ 255

/-- `HueIntervalValidator` bound check: value in `[0, 360]`. -/
def inHueInterval (q : ℚ) : Bool := 0 ≤ q && q ≤ 360

/-- `NameValidator`: regex `^[a-zA-Z0-9_]+$` (None is allowed and skipped). -/
def nameChar (c : Char) : Bool :=
  ('a'.toNat ≤ c.toNat && c.toNat ≤ 'z'.toNat) ||
    ('A'.toNat ≤ c.toNat && c.toNat ≤ 'Z'.toNat) ||
    ('0'.toNat ≤ c.toNat && c.toNat ≤ '9'.toNat) || c = '_'

def nameValidChars (s : String) : Bool := s.data.all nameChar && s.length ≠ 0

def nameValid (s : Option String) : Bool :=
  match s with
  | none => true
  | some s => nameValidChars s

/-- `DescriptionValidator`: at most 255 characters (None allowed). -/
def descriptionValid (s : Option String) : Bool :=
  match s with
  | none => true
  | some s => s.length ≤ 255

/-! ## `conversions.py` -/

/-- One byte from a two-character slice: `int(hex_str[i:i+2], 16)`. -/
def hexPair (a b : Char) : Nat := 16 * hexVal a + hexVal b

/-- `[int(hex_str[i:i+2], 16) for i in range(0, len(hex_str), 2)]`; an odd
trailing character yields a one-character slice (unreachable after
validation). -/
def bytePairs : List Char → List Nat
  | a :: b :: rest => hexPair a b :: bytePairs rest
  | [a] => [hexVal a]
  | [] => []

/-- `hex_to_rgb` (conversions.py:21).  Validates with `HexStringValidator`,
strips leading `'#'`s, parses pairs (long form) or doubled digits
(short form), and divides a fourth channel by 255. -/
def hex_to_rgb (s : String) : Except Err (List ℚ) :=
  if hexStringValid s then
    let ds := s.data.dropWhile (· = '#')
    let rgb : List ℚ :=
      if 4 < ds.length then (bytePairs ds).map (fun n => (n : ℚ))
      else ds.map (fun c => ((hexPair c c : Nat) : ℚ))   -- int(i + i, 16)
    Except.ok (if rgb.length = 4 then rgb.set 3 (rgb.getD 3 0 / 255) else rgb)
  else Except.error Err.valueError

/-- `int(x)` for a nonnegative Python float: truncation = floor. -/
def pyTruncNat (q : ℚ) : Nat := (⌊q⌋).toNat

/-- `rgb_to_hex` (conversions.py:50): `"#{:02X}{:02X}{:02X}"` over the first
three (integer) channels and, when a fourth element is present,
`f"{int(rgb[3]*255):02X}"` — note `int(...)`, a truncation. -/
def rgb_to_hex (r g b : Nat) (alpha : Option ℚ) : String :=
  let base := '#' :: (fmt02X r ++ fmt02X g ++ fmt02X b)
  match alpha with
  | some a => String.mk (base ++ fmt02X (pyTruncNat (a * 255)))
  | none => String.mk base

/-- Python `round` (banker's rounding, half to even) on an exact rational. -/
def pyround (q : ℚ) : ℤ :=
  let f := ⌊q⌋
  if q - f < 1/2 then f
  else if q - f > 1/2 then f + 1
  else if 2 ∣ f then f else f + 1

/-- `round(x, 6)`: round to 6 decimal places (settings.max_precision = 6). -/
def pyround6 (q : ℚ) : ℚ := (pyround (q * 1000000) : ℚ) / 1000000

/-- `colorsys.rgb_to_hls` (pure rational arithmetic in the stdlib source). -/
def rgb_to_hls (r g b : ℚ) : ℚ × ℚ × ℚ :=
  let maxc := max r (max g b)
  let minc := min r (min g b)
  let sumc := maxc + minc
  let rangec := maxc - minc
  let l := sumc / 2
  if minc = maxc then (0, l, 0)
  else
    let s := if l ≤ 1/2 then rangec / sumc else rangec / (2 - sumc)
    let rc := (maxc - r) / rangec
    let gc := (maxc - g) / rangec
    let bc := (maxc - b) / rangec
    let h0 := if r = maxc then bc - gc else if g = maxc then 2 + rc - bc else 4 + gc - rc
    (Int.fract (h0 / 6), l, s)

/-- `rgb_to_hsl` (conversions.py:70): reorders HLS→HSL, scales hue to
`[0,360]`, rounds to `settings.max_precision = 6` decimals, and passes a
fourth (alpha) element through. -/
def rgb_to_hsl (rgb : List ℚ) : List ℚ :=
  let hls := rgb_to_hls (rgb.getD 0 0) (rgb.getD 1 0) (rgb.getD 2 0)
  let hue := pyround6 (hls.1 * 360)
  let lightness := pyround6 hls.2.1
  let saturation := pyround6 hls.2.2
  if rgb.length = 4 then [hue, saturation, lightness, rgb.getD 3 0]
  else [hue, saturation, lightness]

/-- `colorsys.hls_to_rgb` helper `_v` (with exact 1/3, 1/6, 2/3). -/
def hlsV (m1 m2 hue : ℚ) : ℚ :=
  let hue := Int.fract hue
  if hue < 1/6 then m1 + (m2 - m1) * hue * 6
  else if hue < 1/2 then m2
  else if hue < 2/3 then m1 + (m2 - m1) * (2/3 - hue) * 6
  else m1

/-- `colorsys.hls_to_rgb`. -/
def hls_to_rgb (h l s : ℚ) : ℚ × ℚ × ℚ :=
  if s = 0 then (l, l, l)
  else
    let m2 := if l ≤ 1/2 then l * (1 + s) else l + s - l * s
    let m1 := 2 * l - m2
    (hlsV m1 m2 (h + 1/3), hlsV m1 m2 h, hlsV m1 m2 (h - 1/3))

/-! ## The Color Value model
(`color_space/_base_color.py`, `_hex.py`, `_rgb.py`, `_hsl.py`)

A color object's persistent state: the canonical stored fractional RGB
(`_fractional_rgb`, always the 3-tuple passed to the `BaseColor`
initializer), the optional `_alpha`, the subclass-specific stored native
data (`Hex._hex` / `RGB._rgb` / `HSL._hsl`), and the `ColorInfo` metadata
(`metadata` itself is an opaque dict not touched by any claim and is left
out). -/

/-- A Python primitive value as produced by a color's `native` property:
either a string (`Hex`) or a numeric tuple (`BaseColor`/`RGB`/`HSL`). -/
inductive PyVal where
  | str (s : String)
  | tup (l : List ℚ)
deriving DecidableEq, Repr

/-- Subclass-specific stored data: `BaseColor` stores nothing extra,
`Hex` stores `_hex`, `RGB` stores `_rgb = rgb[:3]`, `HSL` stores
`_hsl = hsl[:3]`. -/
inductive StoredRep where
  | base
  | hexS (s : String)
  | rgbS (l : List ℚ)
  | hslS (l : List ℚ)
deriving DecidableEq, Repr

/-- The registered representation types (`BaseColor._subclasses` plus the
base type itself). -/
inductive Space where
  | base
  | hex
  | rgb
  | hsl
deriving DecidableEq, Repr

structure Color where
  frgb : ℚ × ℚ × ℚ           -- _fractional_rgb (the stored 3-tuple)
  alpha : Option ℚ           -- _alpha
  stored : StoredRep
  name : Option String       -- _name
  description : Option String -- _description
deriving DecidableEq, Repr

/-- `self.__class__.__name__` seen as a representation type. -/
def Color.space (c : Color) : Space :=
  match c.stored with
  | .base => .base
  | .hexS _ => .hex
  | .rgbS _ => .rgb
  | .hslS _ => .hsl

def Color.alphaList (c : Color) : List ℚ :=
  match c.alpha with
  | some a => [a]
  | none => []

/-- The `fractional_rgb` property: the stored 3-tuple, with `alpha`
appended when it is set (_base_color.py:107). -/
def Color.fractional_rgb (c : Color) : List ℚ :=
  [c.frgb.1, c.frgb.2.1, c.frgb.2.2] ++ c.alphaList

/-- The `rgb` property: `RGB` returns its stored `_rgb` (plus alpha);
every other class computes `round(x * 255)` per channel from
`fractional_rgb` (plus alpha) (_base_color.py:166, _rgb.py:66). -/
def Color.rgbList (c : Color) : List ℚ :=
  match c.stored with
  | .rgbS l => l ++ c.alphaList
  | _ =>
      ([c.frgb.1, c.frgb.2.1, c.frgb.2.2]).map (fun x => ((pyround (x * 255) : ℤ) : ℚ)) ++
        c.alphaList

/-- The `hsl` property: `HSL` returns its stored `_hsl` (plus alpha);
every other class computes `rgb_to_hsl(fractional_rgb)`
(_base_color.py:160, _hsl.py:70). -/
def Color.hslList (c : Color) : List ℚ :=
  match c.stored with
  | .hslS l => l ++ c.alphaList
  | _ => rgb_to_hsl c.fractional_rgb

/-- First three channels of a derived `rgb` tuple as naturals; fails when a
channel is not a nonnegative integer (Python's `"{:02X}"` format raises on
floats, reachable only through an `RGB` built from non-integers). -/
def qToNat3 (l : List ℚ) : Option (Nat × Nat × Nat) :=
  match l with
  | r :: g :: b :: _ =>
      if r.den = 1 ∧ g.den = 1 ∧ b.den = 1 ∧ 0 ≤ r ∧ 0 ≤ g ∧ 0 ≤ b then
        some (r.num.toNat, g.num.toNat, b.num.toNat)
      else none
  | _ => none

/-- The `hex` property: `Hex` returns its stored `_hex`; every other class
computes `rgb_to_hex(self.rgb)` (_base_color.py:175, _hex.py:82). -/
def Color.hexStrE (c : Color) : Except Err String :=
  match c.stored with
  | .hexS s => .ok s
  | _ =>
      let l := c.rgbList
      match qToNat3 l with
      | some (r, g, b) =>
          .ok (rgb_to_hex r g b (if l.length = 4 then some (l.getD 3 0) else none))
      | none => .error .valueError

/-- The `native` property: the subclass's own representation
(_base_color.py:181): `fractional_rgb` for `BaseColor`, `hex` for `Hex`,
`rgb` for `RGB`, `hsl` for `HSL`; for the three subclasses this is the
stored-data-backed property, so it never raises. -/
def Color.native (c : Color) : PyVal :=
  match c.stored with
  | .base => .tup c.fractional_rgb
  | .hexS s => .str s
  | .rgbS _ => .tup c.rgbList
  | .hslS _ => .tup c.hslList

/-- `BaseColor.__eq__` (_base_color.py:333) between two colors: compare the
native primitive representations (a Python `str` never equals a tuple). -/
def colorBeq (a b : Color) : Bool := a.native = b.native

/-- Python `str.upper()` on ASCII text. -/
def pyUpper (c : Char) : Char :=
  if 'a'.toNat ≤ c.toNat ∧ c.toNat ≤ 'z'.toNat then Char.ofNat (c.toNat - 32) else c

def strUpper (s : String) : String := String.mk (s.data.map pyUpper)

/-- `Hex.__adjust_alpha` (_hex.py:23): when `alpha` is set, replace the alpha
part of the hex string with `f"{int(alpha*255):X}"` (long form) or
`f"{int(alpha*15):X}"` (short form) — `"{:X}"` has no zero padding. -/
def adjust_alpha (hex_str : String) (alpha : Option ℚ) : String :=
  match alpha with
  | none => hex_str
  | some a =>
      if 6 < hex_str.length then
        String.mk (hex_str.data.take 7 ++ fmtX (pyTruncNat (a * 255)))
      else
        String.mk (hex_str.data.take 4 ++ fmtX (pyTruncNat (a * 15)))

/-- `BaseColor.__init__` (_base_color.py:56): the property setters run in
order `fractional_rgb` (each channel through `FractionIntervalValidator`),
`alpha`, `name`, `description`; `stored` is the subclass data already set
by the subclass initializer before `super().__init__`. -/
def baseColorInitCore (r g b : ℚ) (alpha : Option ℚ) (stored : StoredRep)
    (name description : Option String) : Except Err Color :=
  if ¬ (inUnitInterval r && inUnitInterval g && inUnitInterval b) then .error .numericInterval
  else if ¬ (alpha.all inUnitInterval) then .error .numericInterval
  else if ¬ nameValid name then .error .valueError
  else if ¬ descriptionValid description then .error .valueError
  else .ok ⟨(r, g, b), alpha, stored, name, description⟩

/-- Constructing a `BaseColor` directly. -/
def baseColorInit (r g b : ℚ) (alpha : Option ℚ) (name description : Option String) :
    Except Err Color :=
  baseColorInitCore r g b alpha .base name description

/-- The alpha-resolution step shared by the three subclass initializers:
`alpha = parsed[3] if alpha is None else alpha` when the parsed native
value has four channels, the explicit argument otherwise. -/
def resolveAlpha (parsed : List ℚ) (alpha : Option ℚ) : Option ℚ :=
  if parsed.length = 4 then
    (match alpha with | none => some (parsed.getD 3 0) | some a => some a)
  else alpha

/-- `Hex.__init__` (_hex.py:41): parse the string with `hex_to_rgb`, take
alpha from a 4-channel result unless explicitly given, store the
alpha-adjusted string uppercased (the `hex` setter re-validates the
adjusted string with `HexStringValidator`), then run `BaseColor.__init__`. -/
def hexInit (hex_str : String) (alpha : Option ℚ) (name description : Option String) :
    Except Err Color := do
  let rgb ← hex_to_rgb hex_str
  if hexStringValid (adjust_alpha hex_str (resolveAlpha rgb alpha)) then
    baseColorInitCore (rgb.getD 0 0 / 255) (rgb.getD 1 0 / 255) (rgb.getD 2 0 / 255)
      (resolveAlpha rgb alpha)
      (.hexS (strUpper (adjust_alpha hex_str (resolveAlpha rgb alpha)))) name description
  else .error .valueError

/-- `RGB.__init__` (_rgb.py:26): unpack the first three channels (fails when
fewer than three), validate them with `RGB256IntervalValidator` in the
`rgb` setter and store `rgb[:3]`, take alpha from a 4-tuple unless
explicitly given, then run `BaseColor.__init__` on the channels over 255. -/
def rgbInit (rgb : List ℚ) (alpha : Option ℚ) (name description : Option String) :
    Except Err Color :=
  if rgb.length < 3 then .error .valueError
  else if ¬ (rgb.take 3).all inRGB256Interval then .error .numericInterval
  else
    baseColorInitCore (rgb.getD 0 0 / 255) (rgb.getD 1 0 / 255) (rgb.getD 2 0 / 255)
      (resolveAlpha rgb alpha) (.rgbS (rgb.take 3)) name description

/-- `HSL.__init__` (_hsl.py:28): compute fractional RGB with
`colorsys.hls_to_rgb(hsl[0]/360, hsl[2], hsl[1])`, validate hue and the two
fractions in the `hsl` setter and store `hsl[:3]`, take alpha from a
4-tuple unless explicitly given, then run `BaseColor.__init__`. -/
def hslInit (hsl : List ℚ) (alpha : Option ℚ) (name description : Option String) :
    Except Err Color :=
  if hsl.length < 3 then .error .valueError
  else if ¬ (inHueInterval (hsl.getD 0 0) && inUnitInterval (hsl.getD 1 0) &&
      inUnitInterval (hsl.getD 2 0)) then .error .numericInterval
  else
    let rgbT := hls_to_rgb (hsl.getD 0 0 / 360) (hsl.getD 2 0) (hsl.getD 1 0)
    baseColorInitCore rgbT.1 rgbT.2.1 rgbT.2.2 (resolveAlpha hsl alpha)
      (.hslS (hsl.take 3)) name description

/-- `BaseColor.to_color_space` (_base_color.py:193): identity when the target
is the current type; otherwise construct the target subclass from the
derived value of that representation (carrying name/description/alpha) and
then overwrite `_fractional_rgb` with the exact source channels
(_base_color.py:216 bypasses the setter); the `BaseColor` target rebuilds
from the fractional channels directly. -/
def to_color_space (c : Color) (target : Space) : Except Err Color :=
  if target = c.space then .ok c
  else
    match target with
    | .hex => do
        let s ← c.hexStrE
        let c' ← hexInit s c.alpha c.name c.description
        .ok { c' with frgb := c.frgb }
    | .rgb => do
        let c' ← rgbInit c.rgbList c.alpha c.name c.description
        .ok { c' with frgb := c.frgb }
    | .hsl => do
        let c' ← hslInit c.hslList c.alpha c.name c.description
        .ok { c' with frgb := c.frgb }
    | .base =>
        baseColorInit c.frgb.1 c.frgb.2.1 c.frgb.2.2 c.alpha c.name c.description

/-! ## `BaseColor.equivalence` (_base_color.py:293) -/

/-- `math.isclose` default relative tolerance. -/
def relTol : ℚ := 1 / 1000000000

/-- `math.isclose(a, b, abs_tol=t)`:
`|a-b| <= max(rel_tol * max(|a|, |b|), abs_tol)`. -/
def iscloseQ (a b absTol : ℚ) : Bool := |a - b| ≤ max (relTol * max |a| |b|) absTol

/-- The tolerance table lookup `tolerances.get(self.__class__.__name__, 1e-9)`:
`1/(255*2)` for `Hex` and `RGB` (the receiver only), `1e-9` otherwise. -/
def spaceTol (sp : Space) : ℚ :=
  if sp = .hex ∨ sp = .rgb then 1 / (255 * 2) else 1 / 1000000000

/-- `itertools.zip_longest(xs, ys, fillvalue=1)`. -/
def zipLongestOne : List ℚ → List ℚ → List (ℚ × ℚ)
  | [], ys => ys.map (fun y => ((1 : ℚ), y))
  | x :: xs, [] => (x, 1) :: zipLongestOne xs []
  | x :: xs, y :: ys => (x, y) :: zipLongestOne xs ys

/-- `BaseColor.equivalence` between two color objects (the
`isinstance(color, BaseColor)` branch): compare `fractional_rgb`
channel-wise under `math.isclose`, missing alpha filled with 1, absolute
tolerance selected by the *receiver's* class name. -/
def equivalence (self other : Color) : Bool :=
  (zipLongestOne self.fractional_rgb other.fractional_rgb).all
    (fun p => iscloseQ p.1 p.2 (spaceTol self.space))

/-! ## Color Groups (`groups/_scale.py`, `_palette.py`, `_map.py`) -/

/-- `sorted(values) == list(values)`: the list is non-decreasing. -/
def isSortedAsc : List ℚ → Bool
  | [] => true
  | [_] => true
  | x :: y :: rest => decide (x ≤ y) && isSortedAsc (y :: rest)

/-- The `Scale.stops` setter (_scale.py:82).  `None` synthesizes
`[i / (n_colors - 1) for i in range(n_colors - 1)] + [1]`; a supplied
sequence must have the colors' length and satisfy
`sorted(values) == list(values)`.  The `FractionIntervalValidator` line
(_scale.py:90) builds a *generator expression* that is never consumed, so
no `[0,1]` bound check ever runs. -/
def stopsSetter (nColors : Nat) (values : Option (List ℚ)) : Except Err (List ℚ) :=
  match values with
  | none =>
      .ok (((List.range (nColors - 1)).map (fun i : ℕ => (i : ℚ) / ((nColors : ℚ) - 1))) ++ [1])
  | some vs =>
      if vs.length ≠ nColors ∨ ¬ isSortedAsc vs then .error .valueError
      else .ok vs

structure Scale where
  colors : List Color
  stops : List ℚ
  name : Option String
  description : Option String
deriving DecidableEq, Repr

/-- `Scale.__init__` (_scale.py:43): the member type check of `__new__` is
enforced by the embedding's types; `super().__init__` validates
name/description, then the `stops` setter runs. -/
def scaleInit (colors : List Color) (stops : Option (List ℚ))
    (name description : Option String) : Except Err Scale :=
  if ¬ nameValid name then .error .valueError
  else if ¬ descriptionValid description then .error .valueError
  else
    match stopsSetter colors.length stops with
    | .ok st => .ok ⟨colors, st, name, description⟩
    | .error e => .error e

/-- Assigning `scale.stops = values` after construction: the `stops`
property has a setter with no initialized-guard (unlike every other
property), so the assignment simply re-runs the setter. -/
def scaleSetStops (s : Scale) (values : Option (List ℚ)) : Except Err Scale :=
  match stopsSetter s.colors.length values with
  | .ok st => .ok { s with stops := st }
  | .error e => .error e

structure Palette where
  colors : List Color
  name : Option String
  description : Option String
deriving DecidableEq, Repr

/-- `Palette.__init__` (_palette.py:31); the cyclic cursor starts at 0 and
plays no role in the claims. -/
def paletteInit (colors : List Color) (name description : Option String) :
    Except Err Palette :=
  if ¬ nameValid name then .error .valueError
  else if ¬ descriptionValid description then .error .valueError
  else .ok ⟨colors, name, description⟩

/-- The source class `Map` (groups/_map.py): a dict from hashable keys to
colors, keys modelled as strings, insertion order kept. -/
structure ColorMap where
  pairs : List (String × Color)
  name : Option String
  description : Option String
deriving DecidableEq, Repr

/-- `Map.__init__` (_map.py:21): the value type check is enforced by the
embedding's types; name/description validated by the `ColorInfo` setters. -/
def mapInit (pairs : List (String × Color)) (name description : Option String) :
    Except Err ColorMap :=
  if ¬ nameValid name then .error .valueError
  else if ¬ descriptionValid description then .error .valueError
  else .ok ⟨pairs, name, description⟩

/-- Python `==` on the color sequences behind Palette/Scale (both are
`tuple` subclasses, so `==` is element-wise `BaseColor.__eq__`; a Scale's
`stops` do not participate). -/
def colorListBeq (xs ys : List Color) : Bool :=
  decide (xs.length = ys.length) && (List.zip xs ys).all fun p => colorBeq p.1 p.2

def paletteBeq (p q : Palette) : Bool := colorListBeq p.colors q.colors

def scaleBeq (s t : Scale) : Bool := colorListBeq s.colors t.colors

/-- Python `dict.__eq__` on Maps (same keys, `==`-equal values; both sides
have unique keys). -/
def mapBeq (m n : ColorMap) : Bool :=
  decide (m.pairs.length = n.pairs.length) &&
    m.pairs.all fun p =>
      match n.pairs.lookup p.1 with
      | some c => colorBeq p.2 c
      | none => false

/-! ## Serialization dictionaries (`to_dict` / `from_dict`) -/

/-- `BaseColor.to_dict()` (_base_color.py:237): `{type, name, description,
metadata, value}` with `value` the native primitive. -/
structure ColorDict where
  type : Space
  name : Option String
  description : Option String
  value : PyVal
deriving DecidableEq, Repr

def colorToDict (c : Color) : ColorDict := ⟨c.space, c.name, c.description, c.native⟩

/-- `BaseColor.from_dict` (_base_color.py:257): rebuild the concrete subtype
from `type`/`value` (`alpha` is not among the dict keys `to_dict` emits, so
only `name`/`description` are forwarded; a `BaseColor` value tuple spreads
its optional fourth element into the positional `alpha`), then convert to
the requested representation. -/
def color_from_dict (d : ColorDict) (colorSpace : Space) : Except Err Color := do
  let c ← match d.type, d.value with
    | .base, .tup l =>
        baseColorInit (l.getD 0 0) (l.getD 1 0) (l.getD 2 0) (l.get? 3) d.name d.description
    | .hex, .str s => hexInit s none d.name d.description
    | .rgb, .tup l => rgbInit l none d.name d.description
    | .hsl, .tup l => hslInit l none d.name d.description
    | _, _ => .error .typeError
  to_color_space c colorSpace

structure PaletteDict where
  name : Option String
  description : Option String
  colors : List ColorDict
deriving DecidableEq, Repr

structure ScaleDict where
  name : Option String
  description : Option String
  colors : List ColorDict
  stops : List ℚ
deriving DecidableEq, Repr

structure MapDict where
  name : Option String
  description : Option String
  color_map : List (String × ColorDict)
deriving DecidableEq, Repr

def paletteToDict (p : Palette) : PaletteDict :=
  ⟨p.name, p.description, p.colors.map colorToDict⟩

def scaleToDict (s : Scale) : ScaleDict :=
  ⟨s.name, s.description, s.colors.map colorToDict, s.stops⟩

def mapToDict (m : ColorMap) : MapDict :=
  ⟨m.name, m.description, m.pairs.map (fun p => (p.1, colorToDict p.2))⟩

def palette_from_dict (d : PaletteDict) (colorSpace : Space) : Except Err Palette := do
  let colors ← d.colors.mapM (fun cd => color_from_dict cd colorSpace)
  paletteInit colors d.name d.description

def scale_from_dict (d : ScaleDict) (colorSpace : Space) : Except Err Scale := do
  let colors ← d.colors.mapM (fun cd => color_from_dict cd colorSpace)
  scaleInit colors (some d.stops) d.name d.description

def map_from_dict (d : MapDict) (colorSpace : Space) : Except Err ColorMap := do
  let pairs ← d.color_map.mapM (fun p => do
    let c ← color_from_dict p.2 colorSpace
    pure (p.1, c))
  mapInit pairs d.name d.description

/-! ## Camp (`_camp.py`) -/

/-- `settings.default_color_space` (its out-of-the-box value, `"Hex"`). -/
def defaultColorSpace : Space := .hex

structure Camp where
  name : String
  description : Option String
  colors : List Color
  palettes : List Palette
  scales : List Scale
  maps : List ColorMap
deriving DecidableEq, Repr

/-- `Camp.__init__` (_camp.py:109): metadata validated, four empty buckets. -/
def campInit (name : String) (description : Option String) : Except Err Camp :=
  if ¬ nameValidChars name then .error .valueError
  else if ¬ descriptionValid description then .error .valueError
  else .ok ⟨name, description, [], [], [], []⟩

/-- `Bucket.add` (_camp.py:49): a nameless object is an `AttributeError`, a
name already in the bucket is a `ValueError`; otherwise the object is
stored under its own name (insertion order kept). -/
def bucketAdd {α : Type} (getName : α → Option String) (bucket : List α) (item : α) :
    Except Err (List α) :=
  match getName item with
  | none => .error .attributeError
  | some n =>
      if bucket.any (fun x => getName x = some n) then .error .valueError
      else .ok (bucket ++ [item])

/-- The objects `Camp.add_objects` dispatches on (`isinstance`-based). -/
inductive ColorObject where
  | colorO (c : Color)
  | paletteO (p : Palette)
  | scaleO (s : Scale)
  | mapO (m : ColorMap)
deriving DecidableEq, Repr

def campAddObject (camp : Camp) (obj : ColorObject) : Except Err Camp :=
  match obj with
  | .colorO c => do
      let b ← bucketAdd Color.name camp.colors c
      pure { camp with colors := b }
  | .paletteO p => do
      let b ← bucketAdd Palette.name camp.palettes p
      pure { camp with palettes := b }
  | .scaleO s => do
      let b ← bucketAdd Scale.name camp.scales s
      pure { camp with scales := b }
  | .mapO m => do
      let b ← bucketAdd ColorMap.name camp.maps m
      pure { camp with maps := b }

/-- `Camp.add_objects` with the default `exists_ok=False` (_camp.py:169):
route each object into its bucket, propagating errors. -/
def add_objects (camp : Camp) (objs : List ColorObject) : Except Err Camp :=
  objs.foldlM campAddObject camp

structure CampDict where
  name : String
  description : Option String
  colors : List ColorDict
  palettes : List PaletteDict
  scales : List ScaleDict
  maps : List MapDict
deriving DecidableEq, Repr

/-- `Camp.to_dict()` (_camp.py:231). -/
def campToDict (camp : Camp) : CampDict where
  name := camp.name
  description := camp.description
  colors := camp.colors.map colorToDict
  palettes := camp.palettes.map paletteToDict
  scales := camp.scales.map scaleToDict
  maps := camp.maps.map mapToDict

/-- `Camp.from_dict` (_camp.py:249): `color_space` defaults to
`settings.default_color_space`; every stored object is deserialized *into
that representation* and bulk-added to a fresh camp. -/
def camp_from_dict (d : CampDict) (colorSpace : Option Space) : Except Err Camp := do
  let cs := colorSpace.getD defaultColorSpace
  let colorObjs ← d.colors.mapM (fun cd => (color_from_dict cd cs).map ColorObject.colorO)
  let palObjs ← d.palettes.mapM (fun pd => (palette_from_dict pd cs).map ColorObject.paletteO)
  let scaleObjs ← d.scales.mapM (fun sd => (scale_from_dict sd cs).map ColorObject.scaleO)
  let mapObjs ← d.maps.mapM (fun md => (map_from_dict md cs).map ColorObject.mapO)
  let newCamp ← campInit d.name d.description
  add_objects newCamp (colorObjs ++ palObjs ++ scaleObjs ++ mapObjs)

/-! ## Disk persistence (`ColorSerializer.dump_json`, `Camp.save/load`)

The file system is a path → content map.  `json.dump` of equal dicts
produces identical bytes, so file content is modelled as the dict value
itself. -/

abbrev FileSystem := List (String × CampDict)

def fsGet (fs : FileSystem) (p : String) : Option CampDict := fs.lookup p

def fsWrite (fs : FileSystem) (p : String) (v : CampDict) : FileSystem := (p, v) :: fs

/-- `ColorSerializer.dump_json` (_color_metadata.py:142): when the path
exists and `overwrite` is false it raises `FileExistsError` — the existing
file's content is never read or compared; otherwise it writes the dict. -/
def dump_json (fs : FileSystem) (path : String) (content : CampDict) (overwrite : Bool) :
    Except Err FileSystem :=
  if (fsGet fs path).isSome ∧ ¬ overwrite then .error .fileExists
  else .ok (fsWrite fs path content)

def campPath (directory name : String) : String := directory ++ "/" ++ name ++ ".json"

/-- `Camp.save` (_camp.py:329): one JSON file `<directory>/<name>.json`. -/
def camp_save (fs : FileSystem) (camp : Camp) (directory : String) (overwrite : Bool) :
    Except Err FileSystem :=
  dump_json fs (campPath directory camp.name) (campToDict camp) overwrite

/-- `Camp.load` with an explicit directory (_camp.py:286): read
`<directory>/<name>.json` and call `Camp.load_json`, which forwards *no*
color-space argument, so `from_dict` falls back to
`settings.default_color_space`. -/
def camp_load (fs : FileSystem) (name directory : String) : Except Err Camp :=
  match fsGet fs (campPath directory name) with
  | none => .error .fileNotFound
  | some d => camp_from_dict d none

/-! ## Attribute assignment on constructed color objects
(for the immutability claims)

Python attribute semantics on a constructed color: `name`, `description`,
`metadata`, `fractional_rgb`, `alpha` and the class's own representation
field (`Hex.hex` / `RGB.rgb` / `HSL.hsl`) are properties (data
descriptors) whose setters raise `AttributeError` once the backing slot
exists — which is always, after `__init__`.  The *other* representation
fields are `functools.cached_property` (a non-data descriptor), so an
assignment lands in the instance `__dict__`, succeeds, and shadows the
cached value. -/

inductive ColorField where
  | nameF
  | descriptionF
  | metadataF
  | fractionalRgbF
  | alphaF
  | hexF
  | rgbF
  | hslF
deriving DecidableEq, Repr

/-- A live color object: the constructed color plus any `__dict__` entries
shadowing the `cached_property` representation fields. -/
structure PyColorObj where
  color : Color
  hexCache : Option PyVal
  rgbCache : Option PyVal
  hslCache : Option PyVal
deriving DecidableEq, Repr

def mkPyColorObj (c : Color) : PyColorObj := ⟨c, none, none, none⟩

/-- Reading the `rgb` attribute of a live object (cache shadow first). -/
def getRgbAttr (o : PyColorObj) : PyVal := o.rgbCache.getD (.tup o.color.rgbList)

/-- Reading the `hsl` attribute of a live object. -/
def getHslAttr (o : PyColorObj) : PyVal := o.hslCache.getD (.tup o.color.hslList)

/-- `setattr` on a constructed color object.  An `AttributeError` leaves the
object untouched (the setter raises before assigning anything). -/
def setattrColor (o : PyColorObj) (f : ColorField) (v : PyVal) : Except Err PyColorObj :=
  match f with
  | .nameF | .descriptionF | .metadataF | .fractionalRgbF | .alphaF => .error .attributeError
  | .hexF =>
      if o.color.space = .hex then .error .attributeError
      else .ok { o with hexCache := some v }
  | .rgbF =>
      if o.color.space = .rgb then .error .attributeError
      else .ok { o with rgbCache := some v }
  | .hslF =>
      if o.color.space = .hsl then .error .attributeError
      else .ok { o with hslCache := some v }

/-! ## Basic lemmas about hex digits and formatting -/

theorem hexDig_isHexDigit {k : Nat} (hk : k < 16) : isHexDigit (hexDig k) = true := by
  interval_cases k <;> decide

theorem hexVal_hexDig {k : Nat} (hk : k < 16) : hexVal (hexDig k) = k := by
  interval_cases k <;> decide

theorem hexDig_ne_hash {k : Nat} (hk : k < 16) : hexDig k ≠ '#' := by
  interval_cases k <;> decide

theorem isHexDigit_ne_hash {c : Char} (h : isHexDigit c = true) : c ≠ '#' := by
  intro hc
  subst hc
  exact absurd h (by decide)

theorem natToHexAux_small (fuel m : Nat) (hm : m < 16) : natToHexAux fuel m = [hexDig m] := by
  cases fuel with
  | zero => rfl
  | succ fuel => simp [natToHexAux, hm]

theorem fmt02X_eq {n : Nat} (hn : n < 256) : fmt02X n = [hexDig (n / 16), hexDig (n % 16)] := by
  by_cases h : n < 16
  · have h16 : n / 16 = 0 := Nat.div_eq_of_lt h
    have hmod : n % 16 = n := Nat.mod_eq_of_lt h
    rw [fmt02X, natToHexList, natToHexAux_small _ _ h, h16, hmod]
    rfl
  · have hdiv : n / 16 < 16 := by omega
    obtain ⟨m, rfl⟩ : ∃ m, n = m + 1 := ⟨n - 1, by omega⟩
    have hlist : natToHexList (m + 1) = [hexDig ((m + 1) / 16), hexDig ((m + 1) % 16)] := by
      rw [natToHexList]
      simp only [natToHexAux, if_neg h]
      rw [natToHexAux_small _ _ hdiv]
      rfl
    rw [fmt02X, hlist]
    rfl

theorem fmt02X_all_hex {n : Nat} (hn : n < 256) : (fmt02X n).all isHexDigit = true := by
  rw [fmt02X_eq hn]
  simp [hexDig_isHexDigit (show n / 16 < 16 by omega),
    hexDig_isHexDigit (show n % 16 < 16 by omega)]

theorem hexPair_fmt {n : Nat} (hn : n < 256) :
    hexPair (hexDig (n / 16)) (hexDig (n % 16)) = n := by
  rw [hexPair, hexVal_hexDig (show n / 16 < 16 by omega),
    hexVal_hexDig (show n % 16 < 16 by omega)]
  omega

theorem hexVal_le {c : Char} : hexVal c ≤ 15 := by
  have e0 : '0'.toNat = 48 := rfl
  have e9 : '9'.toNat = 57 := rfl
  have eA : 'A'.toNat = 65 := rfl
  have eF : 'F'.toNat = 70 := rfl
  have ea : 'a'.toNat = 97 := rfl
  have ef : 'f'.toNat = 102 := rfl
  rw [hexVal, hexDigitVal]
  split
  · next h => simp only [Option.getD_some]; omega
  · split
    · next h => simp only [Option.getD_some]; omega
    · split
      · next h => simp only [Option.getD_some]; omega
      · simp

theorem hexPair_le (a b : Char) : hexPair a b ≤ 255 := by
  have ha := hexVal_le (c := a)
  have hb := hexVal_le (c := b)
  rw [hexPair]
  omega

theorem bytePairs_le {ds : List Char} : ∀ n ∈ bytePairs ds, n ≤ 255 := by
  induction ds using bytePairs.induct with
  | case1 a b rest ih =>
      intro n hn
      rw [bytePairs] at hn
      rcases List.mem_cons.mp hn with rfl | hn
      · exact hexPair_le a b
      · exact ih n hn
  | case2 a =>
      intro n hn
      rw [bytePairs] at hn
      rcases List.mem_singleton.mp hn with rfl
      have := hexVal_le (c := a)
      omega
  | case3 =>
      intro n hn
      simp [bytePairs] at hn

/-! ## Python rounding and truncation bounds -/

theorem pyround_nonneg {q : ℚ} (hq : 0 ≤ q) : 0 ≤ pyround q := by
  have h0 : (0 : ℤ) ≤ ⌊q⌋ := Int.floor_nonneg.mpr hq
  rw [pyround]
  split
  · exact h0
  · split
    · omega
    · split <;> omega

theorem pyround_le {q : ℚ} {n : ℤ} (hq : q ≤ n) : pyround q ≤ n := by
  have hfl : ⌊q⌋ ≤ n := by
    have := Int.floor_mono hq
    simpa using this
  rw [pyround]
  split
  · omega
  · next h =>
      split
      · next h2 =>
          -- the fractional part exceeds 1/2, so q is not an integer: ⌊q⌋ < n
          have hlt : ⌊q⌋ < n := by
            rcases lt_or_eq_of_le hfl with h3 | h3
            · exact h3
            · exfalso
              have : q - (⌊q⌋ : ℚ) ≤ 0 := by
                have : (⌊q⌋ : ℚ) = (n : ℚ) := by exact_mod_cast h3
                rw [this]
                linarith
              linarith
          omega
      · next h2 =>
          have hlt : ⌊q⌋ < n := by
            rcases lt_or_eq_of_le hfl with h3 | h3
            · exact h3
            · exfalso
              have : q - (⌊q⌋ : ℚ) ≤ 0 := by
                have : (⌊q⌋ : ℚ) = (n : ℚ) := by exact_mod_cast h3
                rw [this]
                linarith
              linarith
          split <;> omega

theorem pyTruncNat_le {a : ℚ} {n : ℕ} (h : a * n ≤ n) : pyTruncNat (a * n) ≤ n := by
  rw [pyTruncNat]
  have : ⌊a * (n : ℚ)⌋ ≤ (n : ℤ) := by
    have := Int.floor_mono h
    simpa using this
  omega

/-! ## Parsing a formatted hex string -/

theorem hexStringValid_mk_bytes {l : List Char} (hhex : l.all isHexDigit = true)
    (hlen : l.length = 3 ∨ l.length = 4 ∨ l.length = 6 ∨ l.length = 8) :
    hexStringValid (String.mk ('#' :: l)) = true := by
  show (decide ('#' = '#') && l.all isHexDigit &&
    (decide (l.length = 3) || decide (l.length = 4) || decide (l.length = 6) ||
      decide (l.length = 8))) = true
  rw [hhex]
  rcases hlen with h | h | h | h <;> simp [h]

theorem dropWhile_hash_hex {l : List Char} (c : Char) (hc : isHexDigit c = true) :
    ('#' :: c :: l).dropWhile (· = '#') = c :: l := by
  rw [List.dropWhile_cons]
  simp only [decide_True, if_true]
  rw [List.dropWhile_cons]
  simp [isHexDigit_ne_hash hc]

theorem hex_to_rgb_rgb_to_hex_none {r g b : Nat} (hr : r ≤ 255) (hg : g ≤ 255) (hb : b ≤ 255) :
    hex_to_rgb (rgb_to_hex r g b none) = .ok [(r : ℚ), (g : ℚ), (b : ℚ)] := by
  have er := fmt02X_eq (show r < 256 by omega)
  have eg := fmt02X_eq (show g < 256 by omega)
  have eb := fmt02X_eq (show b < 256 by omega)
  have hdr : r / 16 < 16 := by omega
  have hdg : g / 16 < 16 := by omega
  have hdb : b / 16 < 16 := by omega
  rw [rgb_to_hex]
  simp only [er, eg, eb]
  rw [hex_to_rgb]
  rw [hexStringValid_mk_bytes (by
        simp [List.all_cons, hexDig_isHexDigit, hdr, hdg, hdb,
          Nat.mod_lt, hexDig_isHexDigit (show r % 16 < 16 by omega),
          hexDig_isHexDigit (show g % 16 < 16 by omega),
          hexDig_isHexDigit (show b % 16 < 16 by omega)])
      (by simp)]
  show Except.ok _ = _
  simp only [List.cons_append, List.nil_append]
  rw [dropWhile_hash_hex _ (hexDig_isHexDigit hdr)]
  rw [bytePairs, bytePairs, bytePairs, bytePairs]
  rw [hexPair_fmt (show r < 256 by omega), hexPair_fmt (show g < 256 by omega),
    hexPair_fmt (show b < 256 by omega)]
  simp

theorem hex_to_rgb_rgb_to_hex_alpha {r g b : Nat} (hr : r ≤ 255) (hg : g ≤ 255) (hb : b ≤ 255)
    {al : Nat} (hal : al ≤ 255) :
    hex_to_rgb (String.mk ('#' :: (fmt02X r ++ fmt02X g ++ fmt02X b ++ fmt02X al))) =
      .ok [(r : ℚ), (g : ℚ), (b : ℚ), (al : ℚ) / 255] := by
  have er := fmt02X_eq (show r < 256 by omega)
  have eg := fmt02X_eq (show g < 256 by omega)
  have eb := fmt02X_eq (show b < 256 by omega)
  have ea := fmt02X_eq (show al < 256 by omega)
  have hdr : r / 16 < 16 := by omega
  simp only [er, eg, eb, ea]
  rw [hex_to_rgb]
  rw [hexStringValid_mk_bytes (by
        simp [List.all_cons, hexDig_isHexDigit, hexDig_isHexDigit hdr,
          hexDig_isHexDigit (show r % 16 < 16 by omega),
          hexDig_isHexDigit (show g / 16 < 16 by omega),
          hexDig_isHexDigit (show g % 16 < 16 by omega),
          hexDig_isHexDigit (show b / 16 < 16 by omega),
          hexDig_isHexDigit (show b % 16 < 16 by omega),
          hexDig_isHexDigit (show al / 16 < 16 by omega),
          hexDig_isHexDigit (show al % 16 < 16 by omega)])
      (by simp)]
  show Except.ok _ = _
  simp only [List.cons_append, List.nil_append]
  rw [dropWhile_hash_hex _ (hexDig_isHexDigit hdr)]
  rw [bytePairs, bytePairs, bytePairs, bytePairs, bytePairs]
  rw [hexPair_fmt (show r < 256 by omega), hexPair_fmt (show g < 256 by omega),
    hexPair_fmt (show b < 256 by omega), hexPair_fmt (show al < 256 by omega)]
  simp [List.set]

/-! ## Equivalence basics -/

theorem spaceTol_pos (sp : Space) : 0 < spaceTol sp := by
  rw [spaceTol]
  split <;> norm_num

theorem iscloseQ_refl (a t : ℚ) (ht : 0 < t) : iscloseQ a a t = true := by
  rw [iscloseQ]
  simp only [sub_self, abs_zero, decide_eq_true_eq]
  exact le_max_of_le_right ht.le

theorem zipLongestOne_self (l : List ℚ) : zipLongestOne l l = l.map (fun x => (x, x)) := by
  induction l with
  | nil => rfl
  | cons x xs ih => rw [zipLongestOne, ih]; rfl

/-- Two colors with identical canonical channels are equivalent. -/
theorem equivalence_of_channels_eq {a b : Color}
    (h : a.fractional_rgb = b.fractional_rgb) : equivalence a b = true := by
  rw [equivalence, ← h, zipLongestOne_self]
  rw [List.all_eq_true]
  intro p hp
  rcases List.mem_map.mp hp with ⟨x, _, rfl⟩
  exact iscloseQ_refl x _ (spaceTol_pos a.space)

/-! ## Constructor inversion and the channel invariant -/

/-- The invariant every constructed color object satisfies: fractional
channels and alpha in `[0,1]`; an `RGB`'s stored tuple is the three
validated `[0,255]` channels. -/
def colorValid (c : Color) : Bool :=
  inUnitInterval c.frgb.1 && inUnitInterval c.frgb.2.1 && inUnitInterval c.frgb.2.2 &&
    c.alpha.all inUnitInterval &&
    (match c.stored with
     | .rgbS l => decide (l.length = 3) && l.all inRGB256Interval
     | _ => true)

theorem baseColorInitCore_ok {r g b : ℚ} {alpha : Option ℚ} {stored : StoredRep}
    {name description : Option String} {c : Color}
    (h : baseColorInitCore r g b alpha stored name description = .ok c) :
    c = ⟨(r, g, b), alpha, stored, name, description⟩ := by
  rw [baseColorInitCore] at h
  repeat' split at h
  all_goals simp_all

theorem except_bind_ok {ε α β : Type} (a : α) (f : α → Except ε β) :
    (Except.ok a >>= f) = f a := rfl

theorem except_bind_error {ε α β : Type} (e : ε) (f : α → Except ε β) :
    ((Except.error e : Except ε α) >>= f) = Except.error e := rfl

theorem resolveAlpha_some (parsed : List ℚ) (a : ℚ) :
    resolveAlpha parsed (some a) = some a := by
  rw [resolveAlpha]
  split <;> rfl

theorem resolveAlpha_none_of_len {parsed : List ℚ} (h : parsed.length ≠ 4) :
    resolveAlpha parsed none = none := by
  rw [resolveAlpha, if_neg h]

theorem hexInit_ok_fields {s : String} {α : Option ℚ} {n d : Option String} {c : Color}
    (h : hexInit s α n d = .ok c) :
    ∃ rgb, hex_to_rgb s = .ok rgb ∧
      c.alpha = resolveAlpha rgb α ∧
      c.frgb = (rgb.getD 0 0 / 255, rgb.getD 1 0 / 255, rgb.getD 2 0 / 255) ∧
      c.name = n ∧ c.description = d ∧
      c.stored = .hexS (strUpper (adjust_alpha s (resolveAlpha rgb α))) := by
  rw [hexInit] at h
  cases hrgb : hex_to_rgb s with
  | error e =>
      rw [hrgb, except_bind_error] at h
      exact absurd h (by simp)
  | ok rgb =>
      rw [hrgb, except_bind_ok] at h
      refine ⟨rgb, rfl, ?_⟩
      split at h
      · have hc := baseColorInitCore_ok h
        subst hc
        exact ⟨rfl, rfl, rfl, rfl, rfl⟩
      · exact absurd h (by simp)

theorem rgbInit_ok_fields {rgb : List ℚ} {α : Option ℚ} {n d : Option String} {c : Color}
    (h : rgbInit rgb α n d = .ok c) :
    c.alpha = resolveAlpha rgb α ∧
    c.frgb = (rgb.getD 0 0 / 255, rgb.getD 1 0 / 255, rgb.getD 2 0 / 255) ∧
    c.name = n ∧ c.description = d ∧ c.stored = .rgbS (rgb.take 3) ∧
    3 ≤ rgb.length ∧ (rgb.take 3).all inRGB256Interval = true := by
  rw [rgbInit] at h
  split at h
  · exact absurd h (by simp)
  · next hlen =>
      split at h
      · exact absurd h (by simp)
      · next hall =>
          have hc := baseColorInitCore_ok h
          subst hc
          refine ⟨rfl, rfl, rfl, rfl, rfl, by omega, ?_⟩
          simpa using hall

theorem hslInit_ok_fields {hsl : List ℚ} {α : Option ℚ} {n d : Option String} {c : Color}
    (h : hslInit hsl α n d = .ok c) :
    c.alpha = resolveAlpha hsl α ∧
    c.name = n ∧ c.description = d ∧ c.stored = .hslS (hsl.take 3) := by
  rw [hslInit] at h
  split at h
  · exact absurd h (by simp)
  · split at h
    · exact absurd h (by simp)
    · have hc := baseColorInitCore_ok h
      subst hc
      exact ⟨rfl, rfl, rfl, rfl⟩

theorem baseColorInit_ok_fields {r g b : ℚ} {α : Option ℚ} {n d : Option String} {c : Color}
    (h : baseColorInit r g b α n d = .ok c) :
    c = ⟨(r, g, b), α, .base, n, d⟩ := baseColorInitCore_ok h

/-! ## `to_color_space` preserves the canonical channels -/

theorem rgb_to_hsl_length (l : List ℚ) :
    (rgb_to_hsl l).length = if l.length = 4 then 4 else 3 := by
  rw [rgb_to_hsl]
  split <;> simp

/-- Helper: a rational that is a nonnegative integer `≤ 255`, as a natural. -/
theorem qToNat3_of_channels {x y z : ℚ} (hx : inRGB256Interval x = true)
    (hy : inRGB256Interval y = true) (hz : inRGB256Interval z = true)
    (dx : x.den = 1) (dy : y.den = 1) (dz : z.den = 1) {rest : List ℚ} :
    qToNat3 (x :: y :: z :: rest) = some (x.num.toNat, y.num.toNat, z.num.toNat) ∧
      x.num.toNat ≤ 255 ∧ y.num.toNat ≤ 255 ∧ z.num.toNat ≤ 255 := by
  simp only [inRGB256Interval, Bool.and_eq_true, decide_eq_true_eq] at hx hy hz
  have hx' : (0 : ℚ) ≤ x := hx.1
  have hy' : (0 : ℚ) ≤ y := hy.1
  have hz' : (0 : ℚ) ≤ z := hz.1
  refine ⟨by simp [qToNat3, dx, dy, dz, hx', hy', hz'], ?_, ?_, ?_⟩
  · have h255 : x.num ≤ 255 := by
      have hle := hx.2
      rw [← Rat.num_div_den x, dx] at hle
      push_cast at hle
      rw [div_one] at hle
      exact_mod_cast hle
    omega
  · have h255 : y.num ≤ 255 := by
      have hle := hy.2
      rw [← Rat.num_div_den y, dy] at hle
      push_cast at hle
      rw [div_one] at hle
      exact_mod_cast hle
    omega
  · have h255 : z.num ≤ 255 := by
      have hle := hz.2
      rw [← Rat.num_div_den z, dz] at hle
      push_cast at hle
      rw [div_one] at hle
      exact_mod_cast hle
    omega

theorem qToNat3_some {l : List ℚ} {r g b : Nat} (h : qToNat3 l = some (r, g, b)) :
    ∃ x y z rest, l = x :: y :: z :: rest ∧ x.den = 1 ∧ y.den = 1 ∧ z.den = 1 ∧
      (0 : ℚ) ≤ x ∧ (0 : ℚ) ≤ y ∧ (0 : ℚ) ≤ z ∧
      r = x.num.toNat ∧ g = y.num.toNat ∧ b = z.num.toNat := by
  match l with
  | [] => exact absurd h (by simp [qToNat3])
  | [_] => exact absurd h (by simp [qToNat3])
  | [_, _] => exact absurd h (by simp [qToNat3])
  | x :: y :: z :: rest =>
      rw [qToNat3] at h
      split at h
      · next hcond =>
          obtain ⟨d1, d2, d3, p1, p2, p3⟩ := hcond
          simp only [Option.some.injEq, Prod.mk.injEq] at h
          exact ⟨x, y, z, rest, rfl, d1, d2, d3, p1, p2, p3, h.1.symm, h.2.1.symm, h.2.2.symm⟩
      · exact absurd h (by simp)

theorem num_toNat_le_255 {x : ℚ} (hd : x.den = 1) (hx : x ≤ 255) : x.num.toNat ≤ 255 := by
  have h255 : x.num ≤ 255 := by
    rw [← Rat.num_div_den x, hd] at hx
    push_cast at hx
    rw [div_one] at hx
    exact_mod_cast hx
  omega

/-- `hex` on a non-`Hex` color is computed from the `rgb` channels. -/
theorem hexStrE_eq_of_not_hex {c : Color} (hsp : ∀ s0, c.stored ≠ .hexS s0) :
    c.hexStrE = (match qToNat3 c.rgbList with
      | some (r, g, b) =>
          .ok (rgb_to_hex r g b
            (if c.rgbList.length = 4 then some (c.rgbList.getD 3 0) else none))
      | none => .error .valueError) := by
  rw [Color.hexStrE]
  rcases hst : c.stored with _ | s0 | l0 | l0
  · rfl
  · exact absurd hst (hsp s0)
  · rfl
  · rfl

/-- The derived `rgb` channel list of a valid color with no alpha and a
non-`RGB` class: three rounded integer channels. -/
theorem rgbList_derived {c : Color} (halpha : c.alpha = none)
    (hsp : ∀ l0, c.stored ≠ .rgbS l0) :
    c.rgbList = [((pyround (c.frgb.1 * 255) : ℤ) : ℚ), ((pyround (c.frgb.2.1 * 255) : ℤ) : ℚ),
      ((pyround (c.frgb.2.2 * 255) : ℤ) : ℚ)] := by
  have halist : c.alphaList = [] := by rw [Color.alphaList, halpha]
  rw [Color.rgbList]
  rcases hst : c.stored with _ | s0 | l0 | l0
  · simp [halist]
  · simp [halist]
  · exact absurd hst (hsp l0)
  · simp [halist]

theorem pyround_channel {x : ℚ} (hx0 : 0 ≤ x) (hx1 : x ≤ 1) :
    (0 : ℚ) ≤ ((pyround (x * 255) : ℤ) : ℚ) ∧ ((pyround (x * 255) : ℤ) : ℚ).den = 1 ∧
      ((pyround (x * 255) : ℤ) : ℚ).num.toNat ≤ 255 := by
  have hnn : (0 : ℤ) ≤ pyround (x * 255) := pyround_nonneg (by positivity)
  have hle : pyround (x * 255) ≤ 255 := pyround_le (by push_cast; linarith)
  refine ⟨by exact_mod_cast hnn, Rat.den_intCast _, ?_⟩
  rw [Rat.num_intCast]
  omega

/-- For a valid color without alpha whose class is not `Hex`, a successful
`hex` read produces exactly the 7-character formatted string. -/
theorem hexStrE_shape {c : Color} (hv : colorValid c = true) (halpha : c.alpha = none)
    (hsp : ∀ s0, c.stored ≠ .hexS s0) {s : String} (h : c.hexStrE = .ok s) :
    ∃ r g b : Nat, r ≤ 255 ∧ g ≤ 255 ∧ b ≤ 255 ∧ s = rgb_to_hex r g b none := by
  rw [hexStrE_eq_of_not_hex hsp] at h
  by_cases hrgbS : ∃ l0, c.stored = .rgbS l0
  · -- RGB: the stored, validated 3-tuple
    obtain ⟨l0, hst⟩ := hrgbS
    have halist : c.alphaList = [] := by rw [Color.alphaList, halpha]
    have hlist : c.rgbList = l0 := by
      rw [Color.rgbList, hst, halist]
      exact List.append_nil l0
    rw [hlist] at h
    rw [colorValid, hst] at hv
    simp only [Bool.and_eq_true, decide_eq_true_eq] at hv
    obtain ⟨-, hlen, hall⟩ := hv
    cases hq : qToNat3 l0 with
    | none => rw [hq] at h; exact absurd h (by simp)
    | some v =>
        obtain ⟨r, g, b⟩ := v
        rw [hq] at h
        obtain ⟨x, y, z, rest, hl, d1, d2, d3, p1, p2, p3, hr, hg, hb⟩ := qToNat3_some hq
        have hrest : rest = [] := by
          rw [hl] at hlen
          simpa using hlen
        subst hrest
        subst hl
        simp only [List.all_cons, List.all_nil, Bool.and_eq_true, inRGB256Interval,
          decide_eq_true_eq] at hall
        simp only [List.length_cons, List.length_nil, Except.ok.injEq] at h
        refine ⟨r, g, b, ?_, ?_, ?_, ?_⟩
        · rw [hr]; exact num_toNat_le_255 d1 hall.1.2
        · rw [hg]; exact num_toNat_le_255 d2 hall.2.1.2
        · rw [hb]; exact num_toNat_le_255 d3 hall.2.2.1.2
        · rw [← h]; norm_num
  · -- BaseColor / HSL: derived rgb channels
    have hsp2 : ∀ l0, c.stored ≠ .rgbS l0 := fun l0 hl0 => hrgbS ⟨l0, hl0⟩
    have hlist := rgbList_derived halpha hsp2
    rw [hlist] at h
    rw [colorValid] at hv
    simp only [Bool.and_eq_true, inUnitInterval, decide_eq_true_eq] at hv
    obtain ⟨⟨⟨⟨h1, h2⟩, h3⟩, -⟩, -⟩ := hv
    obtain ⟨p1, q1, r1⟩ := pyround_channel h1.1 h1.2
    obtain ⟨p2, q2, r2⟩ := pyround_channel h2.1 h2.2
    obtain ⟨p3, q3, r3⟩ := pyround_channel h3.1 h3.2
    rw [qToNat3.eq_def] at h
    simp only at h
    rw [if_pos ⟨q1, q2, q3, p1, p2, p3⟩] at h
    simp only [List.length_cons, List.length_nil, Except.ok.injEq] at h
    refine ⟨_, _, _, r1, r2, r3, ?_⟩
    rw [← h]
    norm_num

theorem stored_ne_hexS {c : Color} (h : c.space ≠ .hex) : ∀ s0, c.stored ≠ .hexS s0 := by
  intro s0 hs
  apply h
  rw [Color.space, hs]

theorem stored_ne_rgbS {c : Color} (h : c.space ≠ .rgb) : ∀ l0, c.stored ≠ .rgbS l0 := by
  intro l0 hs
  apply h
  rw [Color.space, hs]

theorem stored_ne_hslS {c : Color} (h : c.space ≠ .hsl) : ∀ l0, c.stored ≠ .hslS l0 := by
  intro l0 hs
  apply h
  rw [Color.space, hs]

theorem rgbList_len_none {c : Color} (halpha : c.alpha = none)
    (hsp : ∀ l0, c.stored ≠ .rgbS l0) : c.rgbList.length = 3 := by
  rw [rgbList_derived halpha hsp]
  rfl

theorem fractional_rgb_len_none {c : Color} (halpha : c.alpha = none) :
    c.fractional_rgb.length = 3 := by
  rw [Color.fractional_rgb, Color.alphaList, halpha]
  rfl

theorem hslList_len_none {c : Color} (halpha : c.alpha = none)
    (hsp : ∀ l0, c.stored ≠ .hslS l0) : c.hslList.length = 3 := by
  rw [Color.hslList]
  rcases hst : c.stored with _ | s0 | l0 | l0
  · rw [rgb_to_hsl_length, fractional_rgb_len_none halpha]
    rfl
  · rw [rgb_to_hsl_length, fractional_rgb_len_none halpha]
    rfl
  · rw [rgb_to_hsl_length, fractional_rgb_len_none halpha]
    rfl
  · exact absurd hst (hsp l0)

/-- `to_color_space` carries the exact canonical channels: the target is
constructed from a derived value, but line 216 of `_base_color.py`
overwrites `_fractional_rgb` with the source channels, and the explicit
`alpha=self.alpha` argument wins over any alpha encoded in the derived
value. -/
theorem to_color_space_preserves {c : Color} {T : Space} {d : Color}
    (hv : colorValid c = true) (h : to_color_space c T = .ok d) :
    d.frgb = c.frgb ∧ d.alpha = c.alpha ∧ colorValid d = true := by
  have hvc := hv
  rw [colorValid] at hvc
  simp only [Bool.and_eq_true] at hvc
  obtain ⟨⟨⟨⟨hv1, hv2⟩, hv3⟩, hva⟩, -⟩ := hvc
  rw [to_color_space.eq_def] at h
  split at h
  · -- identity: returns self
    simp only [Except.ok.injEq] at h
    subst h
    exact ⟨rfl, rfl, hv⟩
  · next hne =>
      have preserved : d.frgb = c.frgb ∧ d.alpha = c.alpha ∧
          (match d.stored with
           | .rgbS l => decide (l.length = 3) && l.all inRGB256Interval
           | _ => true) = true := by
        cases T with
        | hex =>
            cases hs : c.hexStrE with
            | error e => rw [hs, except_bind_error] at h; exact absurd h (by simp)
            | ok s =>
                rw [hs, except_bind_ok] at h
                cases hci : hexInit s c.alpha c.name c.description with
                | error e => rw [hci, except_bind_error] at h; exact absurd h (by simp)
                | ok c' =>
                    rw [hci, except_bind_ok] at h
                    simp only [Except.ok.injEq] at h
                    subst h
                    obtain ⟨rgb, hrgb, halpha, -, -, -, hstored⟩ := hexInit_ok_fields hci
                    refine ⟨rfl, ?_, by simp [hstored]⟩
                    show c'.alpha = c.alpha
                    rw [halpha]
                    cases hca : c.alpha with
                    | some a => rw [resolveAlpha_some]
                    | none =>
                        have hsp : c.space ≠ .hex := fun hh => hne hh.symm
                        obtain ⟨r, g, b, hr, hg, hb, rfl⟩ :=
                          hexStrE_shape hv hca (stored_ne_hexS hsp) hs
                        rw [hex_to_rgb_rgb_to_hex_none hr hg hb] at hrgb
                        cases hrgb
                        exact resolveAlpha_none_of_len (by simp)
        | rgb =>
            cases hci : rgbInit c.rgbList c.alpha c.name c.description with
            | error e => rw [hci, except_bind_error] at h; exact absurd h (by simp)
            | ok c' =>
                rw [hci, except_bind_ok] at h
                simp only [Except.ok.injEq] at h
                subst h
                obtain ⟨halpha, -, -, -, hstored, hlen3, hall⟩ := rgbInit_ok_fields hci
                refine ⟨rfl, ?_, ?_⟩
                · show c'.alpha = c.alpha
                  rw [halpha]
                  cases hca : c.alpha with
                  | some a => rw [resolveAlpha_some]
                  | none =>
                      have hsp : c.space ≠ .rgb := fun hh => hne hh.symm
                      exact resolveAlpha_none_of_len
                        (by rw [rgbList_len_none hca (stored_ne_rgbS hsp)]; omega)
                · show (match c'.stored with
                    | .rgbS l => decide (l.length = 3) && l.all inRGB256Interval
                    | _ => true) = true
                  rw [hstored]
                  simp only [Bool.and_eq_true, decide_eq_true_eq]
                  exact ⟨by rw [List.length_take]; omega, hall⟩
        | hsl =>
            cases hci : hslInit c.hslList c.alpha c.name c.description with
            | error e => rw [hci, except_bind_error] at h; exact absurd h (by simp)
            | ok c' =>
                rw [hci, except_bind_ok] at h
                simp only [Except.ok.injEq] at h
                subst h
                obtain ⟨halpha, -, -, hstored⟩ := hslInit_ok_fields hci
                refine ⟨rfl, ?_, by simp [hstored]⟩
                show c'.alpha = c.alpha
                rw [halpha]
                cases hca : c.alpha with
                | some a => rw [resolveAlpha_some]
                | none =>
                    have hsp : c.space ≠ .hsl := fun hh => hne hh.symm
                    exact resolveAlpha_none_of_len
                      (by rw [hslList_len_none hca (stored_ne_hslS hsp)]; omega)
        | base =>
            have hd := baseColorInit_ok_fields h
            subst hd
            exact ⟨rfl, rfl, rfl⟩
      obtain ⟨hf, ha, hstored⟩ := preserved
      refine ⟨hf, ha, ?_⟩
      rw [colorValid, hf, ha]
      simp only [Bool.and_eq_true]
      exact ⟨⟨⟨⟨hv1, hv2⟩, hv3⟩, hva⟩, hstored⟩

/-! ## Claim C1 — round-trip conversion -/

/-- The color `Hex("#FF15AA")`. -/
def pinkHex : Color := ⟨(1, 21/255, 170/255), none, .hexS "#FF15AA", none, none⟩

/-- The color `RGB((255, 21, 170))` as produced by converting `pinkHex`. -/
def pinkRgb : Color := ⟨(1, 21/255, 170/255), none, .rgbS [255, 21, 170], none, none⟩

/-- C1 (amended): whenever both conversions succeed,
`c.to_color_space(T).to_color_space(type-of-c).equivalence(c)` is true; the
concrete `Hex("#FF15AA") ↔ RGB((255,21,170))` scenario holds, with `==` in
both directions.  (As stated the claim fails: converting a long-form color
with alpha below 16/255 to `Hex` raises a `ValueError`, see the
counterexample.) -/
theorem claim_C1_roundtrip :
    (∀ (c : Color) (T : Space) (d e : Color), colorValid c = true →
        to_color_space c T = .ok d → to_color_space d c.space = .ok e →
        equivalence e c = true) ∧
    to_color_space pinkHex .rgb = .ok pinkRgb ∧ colorBeq pinkRgb pinkRgb = true ∧
    to_color_space pinkRgb .hex = .ok pinkHex ∧ colorBeq pinkHex pinkHex = true := by
  refine ⟨?_, ?_, ?_, ?_, ?_⟩
  · intro c T d e hv h1 h2
    obtain ⟨hf1, ha1, hv1⟩ := to_color_space_preserves hv h1
    obtain ⟨hf2, ha2, -⟩ := to_color_space_preserves hv1 h2
    apply equivalence_of_channels_eq
    rw [Color.fractional_rgb, Color.fractional_rgb, hf2, hf1, Color.alphaList,
      Color.alphaList, ha2, ha1]
  · with_unfolding_all decide
  · with_unfolding_all decide
  · with_unfolding_all decide
  · with_unfolding_all decide

/-- C1 counterexample: `RGB((255,0,0), alpha=1/20).to_color_space("Hex")`
raises a `ValueError` (the single-digit alpha byte `int(alpha*255) = 12`
makes `Hex.__adjust_alpha` produce the 8-character string `"#FF0000C"`,
which the `hex` setter's `HexStringValidator` rejects), so the round-trip
expression of the claim does not return true for every Color Value. -/
theorem claim_C1_counterexample :
    (do
        let c ← rgbInit [255, 0, 0] (some (1/20)) none none
        let d ← to_color_space c .hex
        let e ← to_color_space d .rgb
        pure (equivalence e c) : Except Err Bool) = .error .valueError := by
  with_unfolding_all decide

/-- C1 witness: the general round-trip statement applied to
`Hex("#FF15AA")` through `RGB`. -/
theorem claim_C1_witness : equivalence pinkHex pinkHex = true :=
  claim_C1_roundtrip.1 pinkHex .rgb pinkRgb pinkHex
    (by with_unfolding_all decide) (by with_unfolding_all decide)
    (by with_unfolding_all decide)

/-! ## Claim C4 — the equivalence tolerance -/

/-- Modelled from the amended claim's words: the tolerance is `1/510` when
the *receiver* (the left operand) is a Hex or RGB value, about `1e-9`
otherwise. -/
def receiverTol (a : Color) : ℚ :=
  if a.space = .hex ∨ a.space = .rgb then 1 / 510 else 1 / 1000000000

/-- Modelled from the amended claim's words: the four canonical channels,
a missing alpha taken as 1. -/
def rgbaChannels (c : Color) : List ℚ :=
  [c.frgb.1, c.frgb.2.1, c.frgb.2.2, c.alpha.getD 1]

/-- Modelled from the amended claim's words: compare the canonical
fractional RGB channel-wise (alpha defaulting to 1) within the receiver's
tolerance. -/
def equivalenceSpec (a b : Color) : Bool :=
  ((rgbaChannels a).zip (rgbaChannels b)).all fun p => iscloseQ p.1 p.2 (receiverTol a)

theorem spaceTol_eq_receiverTol (a : Color) : spaceTol a.space = receiverTol a := by
  rw [spaceTol, receiverTol]
  norm_num

/-- C4 (amended): `equivalence` compares the canonical fractional RGB
channel-wise (missing alpha as 1) within a tolerance determined by the
*receiver's* representation — `1/510` when the receiver is Hex or RGB,
`1e-9` otherwise.  (As stated the claim fails: the other operand's
representation never influences the tolerance, see the counterexample.) -/
theorem claim_C4_equivalence_tolerance (a b : Color) :
    equivalence a b = equivalenceSpec a b := by
  rw [equivalence, equivalenceSpec, ← spaceTol_eq_receiverTol]
  rcases ha : a.alpha with _ | aa <;> rcases hb : b.alpha with _ | ba <;>
    simp [Color.fractional_rgb, rgbaChannels, Color.alphaList, ha, hb, zipLongestOne,
      List.all_cons, iscloseQ_refl _ _ (spaceTol_pos a.space), Bool.and_assoc]

set_option maxRecDepth 4000 in
/-- C4 counterexample: with `a = BaseColor(0.001, 0, 0)` and
`b = Hex("#000000")`, `b.equivalence(a)` is true (tolerance 1/510, receiver
Hex) but `a.equivalence(b)` is false (tolerance 1e-9, receiver BaseColor) —
so the tolerance is not determined by the coarser of the two
representations; one side being Hex does not give the 1/510 tolerance. -/
theorem claim_C4_counterexample :
    baseColorInit (1/1000) 0 0 none none none =
      .ok ⟨(1/1000, 0, 0), none, .base, none, none⟩ ∧
    hexInit "#000000" none none none = .ok ⟨(0, 0, 0), none, .hexS "#000000", none, none⟩ ∧
    equivalence ⟨(0, 0, 0), none, .hexS "#000000", none, none⟩
      ⟨(1/1000, 0, 0), none, .base, none, none⟩ = true ∧
    equivalence ⟨(1/1000, 0, 0), none, .base, none, none⟩
      ⟨(0, 0, 0), none, .hexS "#000000", none, none⟩ = false := by
  with_unfolding_all decide

/-! ## Claim C3 — the domain and values of `hex_to_rgb` -/

/-- The amended acceptance set, written from the claim's words: a leading
`'#'` followed by exactly 3, 4, 6 or 8 hexadecimal digits. -/
def hexShape (s : String) : Prop :=
  ∃ ds, s.data = '#' :: ds ∧ ds.all isHexDigit = true ∧
    (ds.length = 3 ∨ ds.length = 4 ∨ ds.length = 6 ∨ ds.length = 8)

theorem hexStringValid_iff (s : String) : hexStringValid s = true ↔ hexShape s := by
  rw [hexStringValid.eq_def, hexShape]
  cases hd : s.data with
  | nil => simp
  | cons c rest =>
      simp only [Bool.and_eq_true, Bool.or_eq_true, decide_eq_true_eq]
      constructor
      · rintro ⟨⟨rfl, hall⟩, hlen⟩
        exact ⟨rest, rfl, hall, by tauto⟩
      · rintro ⟨ds, hds, hall, hlen⟩
        injection hds with h1 h2
        subst h1
        subst h2
        exact ⟨⟨rfl, hall⟩, by tauto⟩

theorem list_len_three {α : Type} {l : List α} (h : l.length = 3) :
    ∃ a b c, l = [a, b, c] := by
  match l, h with
  | [a, b, c], _ => exact ⟨a, b, c, rfl⟩

theorem list_len_four {α : Type} {l : List α} (h : l.length = 4) :
    ∃ a b c d, l = [a, b, c, d] := by
  match l, h with
  | [a, b, c, d], _ => exact ⟨a, b, c, d, rfl⟩

theorem list_len_six {α : Type} {l : List α} (h : l.length = 6) :
    ∃ a b c d e f, l = [a, b, c, d, e, f] := by
  match l, h with
  | [a, b, c, d, e, f], _ => exact ⟨a, b, c, d, e, f, rfl⟩

theorem list_len_eight {α : Type} {l : List α} (h : l.length = 8) :
    ∃ a b c d e f g j, l = [a, b, c, d, e, f, g, j] := by
  match l, h with
  | [a, b, c, d, e, f, g, j], _ => exact ⟨a, b, c, d, e, f, g, j, rfl⟩

/-- Full characterization of a successful `hex_to_rgb` parse by the shape
of the input. -/
theorem hex_to_rgb_ok_shape {s : String} {l : List ℚ} (h : hex_to_rgb s = .ok l) :
    ∃ ds, s.data = '#' :: ds ∧ ds.all isHexDigit = true ∧
      ((∃ d1 d2 d3, ds = [d1, d2, d3] ∧
          l = [((hexPair d1 d1 : ℕ) : ℚ), ((hexPair d2 d2 : ℕ) : ℚ),
            ((hexPair d3 d3 : ℕ) : ℚ)]) ∨
       (∃ d1 d2 d3 d4, ds = [d1, d2, d3, d4] ∧
          l = [((hexPair d1 d1 : ℕ) : ℚ), ((hexPair d2 d2 : ℕ) : ℚ),
            ((hexPair d3 d3 : ℕ) : ℚ), ((hexPair d4 d4 : ℕ) : ℚ) / 255]) ∨
       (∃ d1 d2 d3 d4 d5 d6, ds = [d1, d2, d3, d4, d5, d6] ∧
          l = [((hexPair d1 d2 : ℕ) : ℚ), ((hexPair d3 d4 : ℕ) : ℚ),
            ((hexPair d5 d6 : ℕ) : ℚ)]) ∨
       (∃ d1 d2 d3 d4 d5 d6 d7 d8, ds = [d1, d2, d3, d4, d5, d6, d7, d8] ∧
          l = [((hexPair d1 d2 : ℕ) : ℚ), ((hexPair d3 d4 : ℕ) : ℚ),
            ((hexPair d5 d6 : ℕ) : ℚ), ((hexPair d7 d8 : ℕ) : ℚ) / 255])) := by
  have hvalid : hexStringValid s = true := by
    by_contra hv
    rw [hex_to_rgb, if_neg (by simpa using hv)] at h
    exact absurd h (by simp)
  obtain ⟨ds, hds, hall, hlen⟩ := (hexStringValid_iff s).mp hvalid
  refine ⟨ds, hds, hall, ?_⟩
  rw [hex_to_rgb, if_pos hvalid, hds] at h
  rcases hlen with h3 | h4 | h6 | h8
  · obtain ⟨d1, d2, d3, rfl⟩ := list_len_three h3
    simp only [List.all_cons, List.all_nil, Bool.and_eq_true] at hall
    rw [dropWhile_hash_hex _ hall.1] at h
    exact Or.inl ⟨d1, d2, d3, rfl, (Except.ok.inj h).symm⟩
  · obtain ⟨d1, d2, d3, d4, rfl⟩ := list_len_four h4
    simp only [List.all_cons, List.all_nil, Bool.and_eq_true] at hall
    rw [dropWhile_hash_hex _ hall.1] at h
    exact Or.inr (Or.inl ⟨d1, d2, d3, d4, rfl, (Except.ok.inj h).symm⟩)
  · obtain ⟨d1, d2, d3, d4, d5, d6, rfl⟩ := list_len_six h6
    simp only [List.all_cons, List.all_nil, Bool.and_eq_true] at hall
    rw [dropWhile_hash_hex _ hall.1] at h
    exact Or.inr (Or.inr (Or.inl ⟨d1, d2, d3, d4, d5, d6, rfl, (Except.ok.inj h).symm⟩))
  · obtain ⟨d1, d2, d3, d4, d5, d6, d7, d8, rfl⟩ := list_len_eight h8
    simp only [List.all_cons, List.all_nil, Bool.and_eq_true] at hall
    rw [dropWhile_hash_hex _ hall.1] at h
    exact Or.inr (Or.inr (Or.inr ⟨d1, d2, d3, d4, d5, d6, d7, d8, rfl,
      (Except.ok.inj h).symm⟩))

theorem hexPair_self (d : Char) : hexPair d d = 17 * hexVal d := by
  rw [hexPair]
  omega

/-- C3 (amended): `hex_to_rgb` accepts exactly the strings consisting of a
*mandatory* leading `'#'` followed by 3, 4, 6 or 8 hexadecimal digits;
shorthand digits are replicated per channel, channels are integers in
`[0,255]`, the 4- and 8-digit forms return a fractional alpha `byte/255`,
and `hex_to_rgb("#8888") = (136,136,136,136/255)`; every other input is
rejected with a `ValueError`.  (As stated the claim fails: the `'#'` is not
optional, see the counterexample.) -/
theorem claim_C3_hex_to_rgb :
    (∀ s, (hex_to_rgb s).isOk = true ↔ hexShape s) ∧
    (∀ s, ¬ hexShape s → hex_to_rgb s = .error Err.valueError) ∧
    (∀ s l, hex_to_rgb s = .ok l → l.length = 3 ∨ l.length = 4) ∧
    (∀ s l, hex_to_rgb s = .ok l → ∀ q ∈ l.take 3, ∃ n : ℕ, n ≤ 255 ∧ q = (n : ℚ)) ∧
    (∀ s l, hex_to_rgb s = .ok l → l.length = 4 →
      ∃ n : ℕ, n ≤ 255 ∧ l.getD 3 0 = (n : ℚ) / 255) ∧
    (∀ d1 d2 d3, isHexDigit d1 = true → isHexDigit d2 = true → isHexDigit d3 = true →
      hex_to_rgb (String.mk ['#', d1, d2, d3]) =
        .ok [((17 * hexVal d1 : ℕ) : ℚ), ((17 * hexVal d2 : ℕ) : ℚ),
          ((17 * hexVal d3 : ℕ) : ℚ)]) ∧
    hex_to_rgb "#8888" = .ok [136, 136, 136, (136 : ℚ) / 255] := by
  refine ⟨?_, ?_, ?_, ?_, ?_, ?_, ?_⟩
  · intro s
    rw [hex_to_rgb]
    by_cases hv : hexStringValid s = true
    · rw [if_pos hv]
      constructor
      · intro _
        exact (hexStringValid_iff s).mp hv
      · intro _
        rfl
    · rw [if_neg hv]
      constructor
      · intro hok
        exact absurd hok (by rw [show (Except.error Err.valueError :
          Except Err (List ℚ)).isOk = false from rfl]; simp)
      · intro hs
        exact absurd ((hexStringValid_iff s).mpr hs) hv
  · intro s hs
    rw [hex_to_rgb, if_neg (fun hv => hs ((hexStringValid_iff s).mp hv))]
  · intro s l h
    obtain ⟨ds, -, -, hc⟩ := hex_to_rgb_ok_shape h
    rcases hc with ⟨_, _, _, -, rfl⟩ | ⟨_, _, _, _, -, rfl⟩ | ⟨_, _, _, _, _, _, -, rfl⟩ |
      ⟨_, _, _, _, _, _, _, _, -, rfl⟩
    · left; rfl
    · right; rfl
    · left; rfl
    · right; rfl
  · intro s l h q hq
    obtain ⟨ds, -, -, hc⟩ := hex_to_rgb_ok_shape h
    rcases hc with ⟨d1, d2, d3, -, rfl⟩ | ⟨d1, d2, d3, d4, -, rfl⟩ |
      ⟨d1, d2, d3, d4, d5, d6, -, rfl⟩ | ⟨d1, d2, d3, d4, d5, d6, d7, d8, -, rfl⟩
    · rw [show ([((hexPair d1 d1 : ℕ) : ℚ), ((hexPair d2 d2 : ℕ) : ℚ),
          ((hexPair d3 d3 : ℕ) : ℚ)]).take 3 = [((hexPair d1 d1 : ℕ) : ℚ),
          ((hexPair d2 d2 : ℕ) : ℚ), ((hexPair d3 d3 : ℕ) : ℚ)] from rfl] at hq
      simp only [List.mem_cons, List.not_mem_nil, or_false] at hq
      rcases hq with rfl | rfl | rfl
      · exact ⟨hexPair d1 d1, hexPair_le _ _, rfl⟩
      · exact ⟨hexPair d2 d2, hexPair_le _ _, rfl⟩
      · exact ⟨hexPair d3 d3, hexPair_le _ _, rfl⟩
    · rw [show ([((hexPair d1 d1 : ℕ) : ℚ), ((hexPair d2 d2 : ℕ) : ℚ),
          ((hexPair d3 d3 : ℕ) : ℚ), ((hexPair d4 d4 : ℕ) : ℚ) / 255]).take 3 =
          [((hexPair d1 d1 : ℕ) : ℚ), ((hexPair d2 d2 : ℕ) : ℚ),
          ((hexPair d3 d3 : ℕ) : ℚ)] from rfl] at hq
      simp only [List.mem_cons, List.not_mem_nil, or_false] at hq
      rcases hq with rfl | rfl | rfl
      · exact ⟨hexPair d1 d1, hexPair_le _ _, rfl⟩
      · exact ⟨hexPair d2 d2, hexPair_le _ _, rfl⟩
      · exact ⟨hexPair d3 d3, hexPair_le _ _, rfl⟩
    · rw [show ([((hexPair d1 d2 : ℕ) : ℚ), ((hexPair d3 d4 : ℕ) : ℚ),
          ((hexPair d5 d6 : ℕ) : ℚ)]).take 3 = [((hexPair d1 d2 : ℕ) : ℚ),
          ((hexPair d3 d4 : ℕ) : ℚ), ((hexPair d5 d6 : ℕ) : ℚ)] from rfl] at hq
      simp only [List.mem_cons, List.not_mem_nil, or_false] at hq
      rcases hq with rfl | rfl | rfl
      · exact ⟨hexPair d1 d2, hexPair_le _ _, rfl⟩
      · exact ⟨hexPair d3 d4, hexPair_le _ _, rfl⟩
      · exact ⟨hexPair d5 d6, hexPair_le _ _, rfl⟩
    · rw [show ([((hexPair d1 d2 : ℕ) : ℚ), ((hexPair d3 d4 : ℕ) : ℚ),
          ((hexPair d5 d6 : ℕ) : ℚ), ((hexPair d7 d8 : ℕ) : ℚ) / 255]).take 3 =
          [((hexPair d1 d2 : ℕ) : ℚ), ((hexPair d3 d4 : ℕ) : ℚ),
          ((hexPair d5 d6 : ℕ) : ℚ)] from rfl] at hq
      simp only [List.mem_cons, List.not_mem_nil, or_false] at hq
      rcases hq with rfl | rfl | rfl
      · exact ⟨hexPair d1 d2, hexPair_le _ _, rfl⟩
      · exact ⟨hexPair d3 d4, hexPair_le _ _, rfl⟩
      · exact ⟨hexPair d5 d6, hexPair_le _ _, rfl⟩
  · intro s l h hlen
    obtain ⟨ds, -, -, hc⟩ := hex_to_rgb_ok_shape h
    rcases hc with ⟨d1, d2, d3, -, rfl⟩ | ⟨d1, d2, d3, d4, -, rfl⟩ |
      ⟨d1, d2, d3, d4, d5, d6, -, rfl⟩ | ⟨d1, d2, d3, d4, d5, d6, d7, d8, -, rfl⟩
    · exact absurd hlen (by simp)
    · exact ⟨hexPair d4 d4, hexPair_le _ _, rfl⟩
    · exact absurd hlen (by simp)
    · exact ⟨hexPair d7 d8, hexPair_le _ _, rfl⟩
  · intro d1 d2 d3 h1 h2 h3
    have hval : hexStringValid (String.mk ['#', d1, d2, d3]) = true :=
      hexStringValid_mk_bytes (by simp [List.all_cons, h1, h2, h3]) (by simp)
    rw [hex_to_rgb, if_pos hval]
    have hdata : (String.mk ['#', d1, d2, d3]).data = '#' :: d1 :: [d2, d3] := rfl
    rw [hdata, dropWhile_hash_hex _ h1]
    show Except.ok [((hexPair d1 d1 : ℕ) : ℚ), ((hexPair d2 d2 : ℕ) : ℚ),
      ((hexPair d3 d3 : ℕ) : ℚ)] = _
    rw [hexPair_self d1, hexPair_self d2, hexPair_self d3]
  · with_unfolding_all decide

/-- C3 counterexample: `"FF15AA"` is six hexadecimal digits with no leading
`'#'`; the claim as stated says such strings are accepted, but `hex_to_rgb`
rejects them (`HexStringValidator`'s regex requires the `'#'`). -/
theorem claim_C3_counterexample :
    hex_to_rgb "FF15AA" = .error Err.valueError ∧
    "FF15AA".data.all isHexDigit = true ∧ "FF15AA".length = 6 := by
  with_unfolding_all decide

/-- C3 witness: the channel-range statement applied to `"#FF15AA"`. -/
theorem claim_C3_witness : ∃ n : ℕ, n ≤ 255 ∧ (255 : ℚ) = (n : ℚ) :=
  claim_C3_hex_to_rgb.2.2.2.1 "#FF15AA" [255, 21, 170]
    (by with_unfolding_all decide) 255 (by with_unfolding_all decide)

/-! ## Claims C5, C8, C10 — Scale stops -/

/-- `BaseColor(0, 0, 0)`, used as a generic member color. -/
def blackBase : Color := ⟨(0, 0, 0), none, .base, none, none⟩

theorem scaleInit_ok_inv {colors : List Color} {stops : Option (List ℚ)}
    {name description : Option String} {s : Scale}
    (h : scaleInit colors stops name description = .ok s) :
    s.colors = colors ∧ s.name = name ∧ s.description = description ∧
      stopsSetter colors.length stops = .ok s.stops := by
  rw [scaleInit] at h
  split at h
  · exact absurd h (by simp)
  · split at h
    · exact absurd h (by simp)
    · cases hst : stopsSetter colors.length stops with
      | error e => rw [hst] at h; exact absurd h (by simp)
      | ok st =>
          rw [hst] at h
          have h2 : Scale.mk colors st name description = s := Except.ok.inj h
          subst h2
          exact ⟨rfl, rfl, rfl, rfl⟩

/-- C5 (amended): supplying stops that are unsorted or of the wrong length
always raises a `ValueError`; omitting stops for `n ≥ 2` colors yields the
`n` evenly spaced values `i/(n-1)` ending at 1, for exactly 1 color the
single stop `[1]`, and a Scale of 4 colors gets `[0, 1/3, 2/3, 1]`.
(As stated the claim fails at `n = 0`: an empty Scale still gets the single
stop `[1]`, not 0 stops — see the counterexample.) -/
theorem claim_C5_scale_stops :
    (∀ (colors : List Color) (vs : List ℚ) (name description : Option String),
        vs.length ≠ colors.length ∨ isSortedAsc vs = false →
        scaleInit colors (some vs) name description = .error .valueError) ∧
    (∀ (colors : List Color) (name description : Option String) (s : Scale),
        scaleInit colors none name description = .ok s → 2 ≤ colors.length →
        s.stops = (List.range colors.length).map
          (fun i : ℕ => (i : ℚ) / ((colors.length : ℚ) - 1))) ∧
    (∀ (colors : List Color) (name description : Option String) (s : Scale),
        scaleInit colors none name description = .ok s → colors.length = 1 →
        s.stops = [1]) ∧
    (do
        let s ← scaleInit [blackBase, blackBase, blackBase, blackBase] none none none
        pure s.stops : Except Err (List ℚ)) = .ok [0, 1/3, 2/3, 1] := by
  refine ⟨?_, ?_, ?_, ?_⟩
  · intro colors vs name description hbad
    have hstop : stopsSetter colors.length (some vs) = .error .valueError := by
      simp only [stopsSetter]
      rw [if_pos]
      rcases hbad with hb | hb
      · exact Or.inl hb
      · exact Or.inr (by simp [hb])
    rw [scaleInit, hstop]
    split
    · rfl
    · split
      · rfl
      · rfl
  · intro colors name description s h hn
    obtain ⟨-, -, -, hst⟩ := scaleInit_ok_inv h
    have hdef : stopsSetter colors.length none =
        .ok ((List.range (colors.length - 1)).map
          (fun i : ℕ => (i : ℚ) / ((colors.length : ℚ) - 1)) ++ [1]) := rfl
    rw [hdef] at hst
    have hs : (List.range (colors.length - 1)).map
        (fun i : ℕ => (i : ℚ) / ((colors.length : ℚ) - 1)) ++ [1] = s.stops :=
      Except.ok.inj hst
    rw [← hs]
    obtain ⟨m, hm⟩ : ∃ m, colors.length = m + 1 := ⟨colors.length - 1, by omega⟩
    rw [hm]
    rw [List.range_succ, List.map_append]
    simp only [Nat.add_sub_cancel, List.map_cons, List.map_nil]
    congr 1
    have hm1 : 1 ≤ m := by omega
    have hne : ((m : ℚ) + 1) - 1 ≠ 0 := by
      have : (1 : ℚ) ≤ (m : ℚ) := by exact_mod_cast hm1
      intro hc
      simp at hc
      rw [hc] at this
      norm_num at this
    rw [show ((m + 1 : ℕ) : ℚ) - 1 = ((m : ℚ) + 1) - 1 by push_cast; ring]
    rw [show ((m : ℚ) + 1) - 1 = (m : ℚ) by ring]
    rw [div_self (by
      have : (1 : ℚ) ≤ (m : ℚ) := by exact_mod_cast hm1
      linarith)]
  · intro colors name description s h hn
    obtain ⟨-, -, -, hst⟩ := scaleInit_ok_inv h
    rw [hn] at hst
    exact (Except.ok.inj hst).symm
  · with_unfolding_all decide

/-- C5 counterexample: an empty Scale (`n = 0` colors) constructed with no
explicit stops succeeds and gets the single stop `[1]` — not `n = 0` evenly
spaced values. -/
theorem claim_C5_counterexample :
    scaleInit [] none none none = .ok ⟨[], [1], none, none⟩ := by
  with_unfolding_all decide

/-- C5 witness: mismatched-length stops on a 1-color Scale raise. -/
theorem claim_C5_witness :
    scaleInit [blackBase] (some [0, 1]) none none = .error .valueError :=
  claim_C5_scale_stops.1 [blackBase] [0, 1] none none (by with_unfolding_all decide)

/-- C8 (code bug): the `FractionIntervalValidator` line of the stops setter
(_scale.py:90) builds a generator expression that is never consumed, so the
`[0,1]` bound check never runs: a sorted, matching-length stops sequence
with a value outside `[0,1]` is accepted and stored. -/
theorem claim_C8_stops_range_unchecked :
    scaleInit [blackBase, blackBase] (some [0, 5]) none none =
      .ok ⟨[blackBase, blackBase], [0, 5], none, none⟩ := by
  with_unfolding_all decide

/-- C10: `Scale.stops` has a setter with no initialized-field guard, so —
unlike every other field — assigning a sorted, matching-length sequence
after construction succeeds and replaces the stored stops. -/
theorem claim_C10_stops_writable (s : Scale) (v : List ℚ)
    (hlen : v.length = s.colors.length) (hsort : isSortedAsc v = true) :
    scaleSetStops s (some v) = .ok { s with stops := v } := by
  rw [scaleSetStops]
  have hstop : stopsSetter s.colors.length (some v) = .ok v := by
    simp only [stopsSetter]
    rw [if_neg]
    simp [hlen, hsort]
  rw [hstop]

/-- C10 witness: replacing the stops of a concrete 2-color Scale. -/
theorem claim_C10_witness :
    scaleSetStops ⟨[blackBase, blackBase], [0, 1], none, none⟩ (some [1/2, 1]) =
      .ok ⟨[blackBase, blackBase], [1/2, 1], none, none⟩ :=
  claim_C10_stops_writable ⟨[blackBase, blackBase], [0, 1], none, none⟩ [1/2, 1]
    (by with_unfolding_all decide) (by with_unfolding_all decide)

/-! ## Claim C6 — `Camp.save` and existing files -/

/-- C6 (amended): with `overwrite=False`, `Camp.save` raises
`FileExistsError` whenever the target file exists — the existing content is
never read or compared, so even byte-identical content is not a no-op; a
missing target, or `overwrite=True`, writes the camp dictionary. -/
theorem claim_C6_save_overwrite :
    (∀ (fs : FileSystem) (camp : Camp) (dir : String),
        (fsGet fs (campPath dir camp.name)).isSome = true →
        camp_save fs camp dir false = .error .fileExists) ∧
    (∀ (fs : FileSystem) (camp : Camp) (dir : String),
        (fsGet fs (campPath dir camp.name)).isSome = false →
        camp_save fs camp dir false =
          .ok (fsWrite fs (campPath dir camp.name) (campToDict camp))) ∧
    (∀ (fs : FileSystem) (camp : Camp) (dir : String),
        camp_save fs camp dir true =
          .ok (fsWrite fs (campPath dir camp.name) (campToDict camp))) := by
  refine ⟨?_, ?_, ?_⟩
  · intro fs camp dir h
    rw [camp_save, dump_json, if_pos ⟨h, by simp⟩]
  · intro fs camp dir h
    rw [camp_save, dump_json, if_neg (by simp [h])]
  · intro fs camp dir
    rw [camp_save, dump_json, if_neg (by simp)]

/-- The camp `Camp("mycamp")` holding the single color
`Hex("#FF15AA", name="x")`. -/
def pinkCamp : Camp :=
  ⟨"mycamp", none, [{ pinkHex with name := some "x" }], [], [], []⟩

/-- C6 counterexample: saving the same camp twice into the same directory —
the second save would write byte-identical content, yet it raises
`FileExistsError` instead of being a no-op. -/
theorem claim_C6_counterexample :
    campInit "mycamp" none = .ok ⟨"mycamp", none, [], [], [], []⟩ ∧
    add_objects ⟨"mycamp", none, [], [], [], []⟩
      [.colorO { pinkHex with name := some "x" }] = .ok pinkCamp ∧
    camp_save [] pinkCamp "dir" false =
      .ok [(campPath "dir" "mycamp", campToDict pinkCamp)] ∧
    camp_save [(campPath "dir" "mycamp", campToDict pinkCamp)] pinkCamp "dir" false =
      .error .fileExists := by
  with_unfolding_all decide

/-- C6 witness: the exists-and-no-overwrite statement at a concrete camp. -/
theorem claim_C6_witness :
    camp_save [(campPath "dir" "mycamp", campToDict pinkCamp)] pinkCamp "dir" false =
      .error .fileExists :=
  claim_C6_save_overwrite.1 [(campPath "dir" "mycamp", campToDict pinkCamp)] pinkCamp "dir"
    (by with_unfolding_all decide)

/-! ## Claim C7 — `rgb_to_hex` and the alpha byte -/

/-- An uppercase-hex-or-hash character. -/
def upperHexOrHash (c : Char) : Bool :=
  c = '#' || ('0'.toNat ≤ c.toNat && c.toNat ≤ '9'.toNat) ||
    ('A'.toNat ≤ c.toNat && c.toNat ≤ 'F'.toNat)

theorem hexDig_upper {k : ℕ} (hk : k < 16) : upperHexOrHash (hexDig k) = true := by
  interval_cases k <;> decide

theorem fmt02X_upper {n : ℕ} (hn : n < 256) : (fmt02X n).all upperHexOrHash = true := by
  rw [fmt02X_eq hn]
  simp [hexDig_upper (show n / 16 < 16 by omega), hexDig_upper (show n % 16 < 16 by omega)]

theorem upperHexOrHash_hash : upperHexOrHash '#' = true := by decide

/-- C7 (amended): `rgb_to_hex` formats the three channels as uppercase
2-digit hex and appends a fourth byte equal to `int(alpha*255)` — a
*truncation*, so alpha 1/2 appends byte 127 = `"7F"`, not
`round(alpha*255) = 128 = "80"`.  The output is 9 characters of `'#'` and
uppercase hex digits, and parsing it back recovers the channels and the
truncated alpha byte. -/
theorem claim_C7_rgb_to_hex (r g b : ℕ) (a : ℚ) (hr : r ≤ 255) (hg : g ≤ 255)
    (hb : b ≤ 255) (_ha0 : 0 ≤ a) (ha1 : a ≤ 1) :
    hex_to_rgb (rgb_to_hex r g b (some a)) =
      .ok [(r : ℚ), (g : ℚ), (b : ℚ), (pyTruncNat (a * 255) : ℚ) / 255] ∧
    (rgb_to_hex r g b (some a)).length = 9 ∧
    (rgb_to_hex r g b (some a)).data.all upperHexOrHash = true := by
  have hal : pyTruncNat (a * 255) ≤ 255 := by
    apply pyTruncNat_le
    calc a * (255 : ℚ) ≤ 1 * 255 := by
          exact mul_le_mul_of_nonneg_right ha1 (by norm_num)
      _ = 255 := by norm_num
  have hform : rgb_to_hex r g b (some a) =
      String.mk ('#' :: (fmt02X r ++ fmt02X g ++ fmt02X b ++ fmt02X (pyTruncNat (a * 255)))) := by
    rw [rgb_to_hex]
    simp [List.cons_append, List.append_assoc]
  refine ⟨?_, ?_, ?_⟩
  · rw [hform]
    exact hex_to_rgb_rgb_to_hex_alpha hr hg hb hal
  · rw [hform]
    show ('#' :: (fmt02X r ++ fmt02X g ++ fmt02X b ++ fmt02X (pyTruncNat (a * 255)))).length = 9
    simp [List.length_append, fmt02X_eq (show r < 256 by omega), fmt02X_eq (show g < 256 by omega),
      fmt02X_eq (show b < 256 by omega), fmt02X_eq (show pyTruncNat (a * 255) < 256 by omega)]
  · rw [hform]
    show ('#' :: (fmt02X r ++ fmt02X g ++ fmt02X b ++ fmt02X (pyTruncNat (a * 255)))).all
      upperHexOrHash = true
    simp [List.all_cons, List.all_append, upperHexOrHash_hash,
      fmt02X_upper (show r < 256 by omega), fmt02X_upper (show g < 256 by omega),
      fmt02X_upper (show b < 256 by omega),
      fmt02X_upper (show pyTruncNat (a * 255) < 256 by omega)]

/-- C7 counterexample: alpha 1/2 appends the *truncated* byte
`int(127.5) = 127 = "7F"`, not the rounded `"80"` the claim demands. -/
theorem claim_C7_counterexample :
    rgb_to_hex 128 0 128 (some (1/2)) = "#8000807F" ∧
    rgb_to_hex 128 0 128 (some (1/2)) ≠ "#80008080" := by
  with_unfolding_all decide

/-- C7 witness: the format statement at channels (255, 21, 170), alpha 1. -/
theorem claim_C7_witness :
    hex_to_rgb (rgb_to_hex 255 21 170 (some 1)) =
      .ok [(255 : ℚ), (21 : ℚ), (170 : ℚ), (pyTruncNat ((1 : ℚ) * 255) : ℚ) / 255] :=
  (claim_C7_rgb_to_hex 255 21 170 1 (by norm_num) (by norm_num) (by norm_num)
    (by norm_num) (by norm_num)).1

/-! ## Claim C9 — immutability of color object fields -/

/-- C9 (amended): on a constructed color object, assigning to `name`,
`description`, `metadata`, `fractional_rgb`, `alpha`, or the class's *own*
representation field (`hex` on `Hex`, `rgb` on `RGB`, `hsl` on `HSL`)
raises `AttributeError` and leaves the object untouched; but a *derived*
representation field of another class is an inherited
`functools.cached_property` (a non-data descriptor), so assigning it does
not raise — it lands in the instance `__dict__` and changes what the
attribute subsequently returns. -/
theorem claim_C9_immutability :
    (∀ (o : PyColorObj) (v : PyVal),
        setattrColor o .nameF v = .error .attributeError ∧
        setattrColor o .descriptionF v = .error .attributeError ∧
        setattrColor o .metadataF v = .error .attributeError ∧
        setattrColor o .fractionalRgbF v = .error .attributeError ∧
        setattrColor o .alphaF v = .error .attributeError) ∧
    (∀ (o : PyColorObj) (v : PyVal), o.color.space = .hex →
        setattrColor o .hexF v = .error .attributeError) ∧
    (∀ (o : PyColorObj) (v : PyVal), o.color.space = .rgb →
        setattrColor o .rgbF v = .error .attributeError) ∧
    (∀ (o : PyColorObj) (v : PyVal), o.color.space = .hsl →
        setattrColor o .hslF v = .error .attributeError) ∧
    (∀ (o : PyColorObj) (v : PyVal), o.color.space ≠ .rgb →
        setattrColor o .rgbF v = .ok { o with rgbCache := some v } ∧
        getRgbAttr { o with rgbCache := some v } = v) := by
  refine ⟨?_, ?_, ?_, ?_, ?_⟩
  · intro o v
    exact ⟨rfl, rfl, rfl, rfl, rfl⟩
  · intro o v h
    rw [setattrColor, if_pos h]
  · intro o v h
    rw [setattrColor, if_pos h]
  · intro o v h
    rw [setattrColor, if_pos h]
  · intro o v h
    exact ⟨by rw [setattrColor, if_neg h], rfl⟩

/-- C9 counterexample: on `Hex("#FF15AA")`, assigning to the inherited
`rgb` cached property does not raise — and the value read back from `rgb`
afterwards is the assigned one, not the original channels. -/
theorem claim_C9_counterexample :
    setattrColor (mkPyColorObj pinkHex) .rgbF (.tup [0, 0, 0]) =
      .ok { mkPyColorObj pinkHex with rgbCache := some (.tup [0, 0, 0]) } ∧
    getRgbAttr { mkPyColorObj pinkHex with rgbCache := some (.tup [0, 0, 0]) } =
      .tup [0, 0, 0] ∧
    getRgbAttr (mkPyColorObj pinkHex) = .tup [255, 21, 170] := by
  with_unfolding_all decide

/-- C9 witness: assigning `hex` on a `Hex` object raises. -/
theorem claim_C9_witness :
    setattrColor (mkPyColorObj pinkHex) .hexF (.str "#FFFFFF") = .error .attributeError :=
  claim_C9_immutability.2.1 (mkPyColorObj pinkHex) (.str "#FFFFFF")
    (by with_unfolding_all decide)

/-! ## Claim C2 — save/load fidelity -/

/-- A color whose stored hex string reparses to itself — the invariant
every constructible `Hex` value satisfies (the stored string is the
alpha-adjusted, validated, uppercased input). -/
def goodHex (c : Color) : Bool :=
  match c.stored with
  | .hexS s =>
      (match hexInit s none c.name c.description with
       | .ok c' => decide (c'.stored = .hexS s)
       | .error _ => false)
  | _ => false

/-- All names present and pairwise distinct (the `Bucket` invariant). -/
def namesDistinct : List (Option String) → Bool
  | [] => true
  | n :: ns => n.isSome && ns.all (fun m => decide (m ≠ n)) && namesDistinct ns

/-- Keys pairwise distinct (automatic for a Python dict). -/
def keysUnique : List (String × Color) → Bool
  | [] => true
  | (k, _) :: xs => xs.all (fun p => decide (p.1 ≠ k)) && keysUnique xs

def paletteGood (p : Palette) : Bool :=
  p.colors.all goodHex && nameValid p.name && descriptionValid p.description

def scaleGood (s : Scale) : Bool :=
  s.colors.all goodHex && decide (s.stops.length = s.colors.length) &&
    isSortedAsc s.stops && nameValid s.name && descriptionValid s.description

def mapGood (m : ColorMap) : Bool :=
  (m.pairs.map Prod.snd).all goodHex && keysUnique m.pairs &&
    nameValid m.name && descriptionValid m.description

/-- A camp as built through the public API, whose Color Values are all Hex
(the default color space): valid metadata, per-bucket unique names, per-map
unique keys, sorted matching-length stops, and every color a constructible
`Hex`. -/
def campGood (camp : Camp) : Bool :=
  nameValidChars camp.name && descriptionValid camp.description &&
    camp.colors.all goodHex && namesDistinct (camp.colors.map Color.name) &&
    camp.palettes.all paletteGood && namesDistinct (camp.palettes.map Palette.name) &&
    camp.scales.all scaleGood && namesDistinct (camp.scales.map Scale.name) &&
    camp.maps.all mapGood && namesDistinct (camp.maps.map ColorMap.name)

/-- Bucket-wise `==` with matching names, position by position. -/
def colorsBucketEq (xs ys : List Color) : Bool :=
  decide (xs.length = ys.length) &&
    (xs.zip ys).all (fun p => colorBeq p.1 p.2 && decide (p.1.name = p.2.name))

def palettesBucketEq (xs ys : List Palette) : Bool :=
  decide (xs.length = ys.length) &&
    (xs.zip ys).all (fun p => paletteBeq p.1 p.2 && decide (p.1.name = p.2.name))

def scalesBucketEq (xs ys : List Scale) : Bool :=
  decide (xs.length = ys.length) &&
    (xs.zip ys).all (fun p => scaleBeq p.1 p.2 && decide (p.1.name = p.2.name))

def mapsBucketEq (xs ys : List ColorMap) : Bool :=
  decide (xs.length = ys.length) &&
    (xs.zip ys).all (fun p => mapBeq p.1 p.2 && decide (p.1.name = p.2.name))

/-- Every object of `b` compares `==`-equal (and identically named) to the
correspondingly positioned object of `a`. -/
def campEqObjects (a b : Camp) : Bool :=
  colorsBucketEq a.colors b.colors && palettesBucketEq a.palettes b.palettes &&
    scalesBucketEq a.scales b.scales && mapsBucketEq a.maps b.maps

theorem color_from_dict_goodHex {c : Color} (h : goodHex c = true) :
    ∃ c', color_from_dict (colorToDict c) defaultColorSpace = .ok c' ∧
      colorBeq c' c = true ∧ c'.name = c.name := by
  rw [goodHex.eq_def] at h
  split at h
  · next s hst =>
      split at h
      · next c' hci =>
          simp only [decide_eq_true_eq] at h
          have hspace : c.space = .hex := by simp [Color.space, hst]
          have hnative : c.native = .str s := by simp [Color.native, hst]
          refine ⟨c', ?_, ?_, ?_⟩
          · rw [colorToDict, hspace, hnative]
            show (do
              let c0 ← hexInit s none c.name c.description
              to_color_space c0 defaultColorSpace : Except Err Color) = .ok c'
            rw [hci, except_bind_ok, to_color_space.eq_def,
              if_pos (by simp [defaultColorSpace, Color.space, h])]
          · rw [colorBeq, hnative]
            simp [Color.native, h]
          · obtain ⟨rgb, -, -, -, hname, -, -⟩ := hexInit_ok_fields hci
            exact hname
      · exact absurd h (by simp)
  · exact absurd h (by simp)

theorem from_dict_colors_list {cs : List Color} (h : cs.all goodHex = true) :
    ∃ cs', (cs.map colorToDict).mapM (fun cd => color_from_dict cd defaultColorSpace) =
        .ok cs' ∧
      colorsBucketEq cs' cs = true ∧ cs'.map Color.name = cs.map Color.name := by
  induction cs with
  | nil => exact ⟨[], rfl, rfl, rfl⟩
  | cons c cs ih =>
      simp only [List.all_cons, Bool.and_eq_true] at h
      obtain ⟨c', hc', hbeq, hname⟩ := color_from_dict_goodHex h.1
      obtain ⟨cs', hcs', heq, hnames⟩ := ih h.2
      refine ⟨c' :: cs', ?_, ?_, ?_⟩
      · simp only [List.map_cons, List.mapM_cons, hc', hcs', except_bind_ok]
        rfl
      · rw [colorsBucketEq] at heq ⊢
        simp only [Bool.and_eq_true, decide_eq_true_eq] at heq ⊢
        refine ⟨by simp [heq.1], ?_⟩
        simp only [List.zip_cons_cons, List.all_cons, Bool.and_eq_true, decide_eq_true_eq]
        exact ⟨⟨hbeq, hname⟩, heq.2⟩
      · simp [hname, hnames]

theorem colorListBeq_of_bucketEq {xs ys : List Color} (h : colorsBucketEq xs ys = true) :
    colorListBeq xs ys = true := by
  rw [colorsBucketEq] at h
  rw [colorListBeq]
  simp only [Bool.and_eq_true, decide_eq_true_eq] at h ⊢
  refine ⟨h.1, ?_⟩
  rw [List.all_eq_true] at h ⊢
  intro p hp
  have hq := h.2 p hp
  simp only [Bool.and_eq_true] at hq
  exact hq.1

theorem colorsBucketEq_length {xs ys : List Color} (h : colorsBucketEq xs ys = true) :
    xs.length = ys.length := by
  rw [colorsBucketEq] at h
  simp only [Bool.and_eq_true, decide_eq_true_eq] at h
  exact h.1

theorem paletteInit_ok {colors : List Color} {n d : Option String}
    (hn : nameValid n = true) (hd : descriptionValid d = true) :
    paletteInit colors n d = .ok ⟨colors, n, d⟩ := by
  rw [paletteInit, if_neg (by simp [hn]), if_neg (by simp [hd])]

theorem palette_from_dict_good {p : Palette} (h : paletteGood p = true) :
    ∃ p', palette_from_dict (paletteToDict p) defaultColorSpace = .ok p' ∧
      paletteBeq p' p = true ∧ p'.name = p.name := by
  rw [paletteGood] at h
  simp only [Bool.and_eq_true] at h
  obtain ⟨⟨hall, hn⟩, hd⟩ := h
  obtain ⟨cs', hcs', heq, -⟩ := from_dict_colors_list hall
  refine ⟨⟨cs', p.name, p.description⟩, ?_, ?_, rfl⟩
  · show (do
      let colors ← (p.colors.map colorToDict).mapM
        (fun cd => color_from_dict cd defaultColorSpace)
      paletteInit colors p.name p.description : Except Err Palette) = _
    rw [hcs', except_bind_ok]
    exact paletteInit_ok hn hd
  · exact colorListBeq_of_bucketEq heq

theorem scaleInit_some_ok {colors : List Color} {vs : List ℚ} {n d : Option String}
    (hn : nameValid n = true) (hd : descriptionValid d = true)
    (hlen : vs.length = colors.length) (hsort : isSortedAsc vs = true) :
    scaleInit colors (some vs) n d = .ok ⟨colors, vs, n, d⟩ := by
  rw [scaleInit, if_neg (by simp [hn]), if_neg (by simp [hd])]
  have hstop : stopsSetter colors.length (some vs) = .ok vs := by
    simp only [stopsSetter]
    rw [if_neg (by simp [hlen, hsort])]
  rw [hstop]

theorem scale_from_dict_good {s : Scale} (h : scaleGood s = true) :
    ∃ s', scale_from_dict (scaleToDict s) defaultColorSpace = .ok s' ∧
      scaleBeq s' s = true ∧ s'.name = s.name := by
  rw [scaleGood] at h
  simp only [Bool.and_eq_true, decide_eq_true_eq] at h
  obtain ⟨⟨⟨⟨hall, hlen⟩, hsort⟩, hn⟩, hd⟩ := h
  obtain ⟨cs', hcs', heq, -⟩ := from_dict_colors_list hall
  refine ⟨⟨cs', s.stops, s.name, s.description⟩, ?_, ?_, rfl⟩
  · show (do
      let colors ← (s.colors.map colorToDict).mapM
        (fun cd => color_from_dict cd defaultColorSpace)
      scaleInit colors (some s.stops) s.name s.description : Except Err Scale) = _
    rw [hcs', except_bind_ok]
    exact scaleInit_some_ok hn hd (by rw [hlen, colorsBucketEq_length heq]) hsort
  · exact colorListBeq_of_bucketEq heq

theorem zip_keys_eq {ps qs : List (String × Color)} (hlen : ps.length = qs.length)
    (hpt : (ps.zip qs).all (fun p => decide (p.1.1 = p.2.1) && colorBeq p.1.2 p.2.2) = true) :
    ps.map Prod.fst = qs.map Prod.fst := by
  induction ps generalizing qs with
  | nil =>
      cases qs with
      | nil => rfl
      | cons q qs => simp at hlen
  | cons p ps ih =>
      cases qs with
      | nil => simp at hlen
      | cons q qs =>
          simp only [List.zip_cons_cons, List.all_cons, Bool.and_eq_true,
            decide_eq_true_eq] at hpt
          simp only [List.length_cons, Nat.add_right_cancel_iff] at hlen
          simp only [List.map_cons]
          rw [hpt.1.1, ih hlen hpt.2]

theorem map_pairs_lookup {ps qs : List (String × Color)}
    (hku : keysUnique qs = true) (hlen : ps.length = qs.length)
    (hpt : (ps.zip qs).all (fun p => decide (p.1.1 = p.2.1) && colorBeq p.1.2 p.2.2) = true) :
    ps.all (fun p =>
      match qs.lookup p.1 with
      | some c => colorBeq p.2 c
      | none => false) = true := by
  induction ps generalizing qs with
  | nil => rfl
  | cons p ps ih =>
      cases qs with
      | nil => simp at hlen
      | cons q qs =>
          obtain ⟨k, v⟩ := p
          obtain ⟨k', w⟩ := q
          rw [keysUnique] at hku
          simp only [Bool.and_eq_true] at hku
          simp only [List.zip_cons_cons, List.all_cons, Bool.and_eq_true,
            decide_eq_true_eq] at hpt
          obtain ⟨⟨hk, hbeq⟩, hpt'⟩ := hpt
          subst hk
          simp only [List.length_cons, Nat.add_right_cancel_iff] at hlen
          have hkeys : ps.map Prod.fst = qs.map Prod.fst := zip_keys_eq hlen hpt'
          rw [List.all_eq_true]
          intro x hx
          rcases List.mem_cons.mp hx with rfl | hx'
          · have hlk : ((k, w) :: qs).lookup (k, v).1 = some w := by simp [List.lookup]
            show (match ((k, w) :: qs).lookup (k, v).1 with
              | some c => colorBeq (k, v).2 c
              | none => false) = true
            rw [hlk]
            exact hbeq
          · have hxk : x.1 ≠ k := by
              have hxmem : x.1 ∈ qs.map Prod.fst := by
                rw [← hkeys]
                exact List.mem_map_of_mem Prod.fst hx'
              obtain ⟨pr, hpr, hpr1⟩ := List.mem_map.mp hxmem
              have := (List.all_eq_true.mp hku.1) pr hpr
              simp only [decide_eq_true_eq] at this
              rw [← hpr1]
              exact this
            have hlk : ((k, w) :: qs).lookup x.1 = qs.lookup x.1 := by
              rw [List.lookup]
              rw [beq_eq_false_iff_ne.mpr hxk]
            show (match ((k, w) :: qs).lookup x.1 with
              | some c => colorBeq x.2 c
              | none => false) = true
            rw [hlk]
            exact (List.all_eq_true.mp (ih hku.2 hlen hpt')) x hx'

theorem mapInit_ok {pairs : List (String × Color)} {n d : Option String}
    (hn : nameValid n = true) (hd : descriptionValid d = true) :
    mapInit pairs n d = .ok ⟨pairs, n, d⟩ := by
  rw [mapInit, if_neg (by simp [hn]), if_neg (by simp [hd])]

theorem from_dict_pairs_list {ps : List (String × Color)}
    (h : (ps.map Prod.snd).all goodHex = true) :
    ∃ ps', (ps.map (fun p => (p.1, colorToDict p.2))).mapM
        (fun p => do
          let c ← color_from_dict p.2 defaultColorSpace
          pure (p.1, c)) = .ok ps' ∧
      ps'.length = ps.length ∧
      (ps'.zip ps).all (fun p => decide (p.1.1 = p.2.1) && colorBeq p.1.2 p.2.2) = true := by
  induction ps with
  | nil => exact ⟨[], rfl, rfl, rfl⟩
  | cons p ps ih =>
      simp only [List.map_cons, List.all_cons, Bool.and_eq_true] at h
      obtain ⟨c', hc', hbeq, -⟩ := color_from_dict_goodHex h.1
      obtain ⟨ps', hps', hlen, hpt⟩ := ih h.2
      refine ⟨(p.1, c') :: ps', ?_, by simp [hlen], ?_⟩
      · simp only [List.map_cons, List.mapM_cons, hc', hps', except_bind_ok]
        rfl
      · simp only [List.zip_cons_cons, List.all_cons, Bool.and_eq_true, decide_eq_true_eq]
        exact ⟨⟨trivial, hbeq⟩, hpt⟩

theorem map_from_dict_good {m : ColorMap} (h : mapGood m = true) :
    ∃ m', map_from_dict (mapToDict m) defaultColorSpace = .ok m' ∧
      mapBeq m' m = true ∧ m'.name = m.name := by
  rw [mapGood] at h
  simp only [Bool.and_eq_true] at h
  obtain ⟨⟨⟨hall, hku⟩, hn⟩, hd⟩ := h
  obtain ⟨ps', hps', hlen, hpt⟩ := from_dict_pairs_list hall
  refine ⟨⟨ps', m.name, m.description⟩, ?_, ?_, rfl⟩
  · show (do
      let pairs ← (m.pairs.map (fun p => (p.1, colorToDict p.2))).mapM
        (fun p => do
          let c ← color_from_dict p.2 defaultColorSpace
          pure (p.1, c))
      mapInit pairs m.name m.description : Except Err ColorMap) = _
    rw [hps', except_bind_ok]
    exact mapInit_ok hn hd
  · rw [mapBeq]
    simp only [Bool.and_eq_true, decide_eq_true_eq]
    exact ⟨hlen, map_pairs_lookup hku hlen hpt⟩

theorem bucketAdd_ok {α : Type} (getName : α → Option String) (bucket : List α) (item : α)
    {n : String} (hn : getName item = some n)
    (hfresh : bucket.all (fun x => decide (getName x ≠ getName item)) = true) :
    bucketAdd getName bucket item = .ok (bucket ++ [item]) := by
  rw [bucketAdd.eq_def, hn]
  have hany : bucket.any (fun x => decide (getName x = some n)) = false := by
    rw [Bool.eq_false_iff]
    intro hc
    obtain ⟨x, hx, he⟩ := List.any_eq_true.mp hc
    have hne := (List.all_eq_true.mp hfresh) x hx
    simp only [decide_eq_true_eq] at he hne
    rw [hn] at hne
    exact hne he
  show (if (bucket.any fun x => decide (getName x = some n)) = true then
      Except.error Err.valueError
    else Except.ok (bucket ++ [item])) = Except.ok (bucket ++ [item])
  rw [if_neg (by simp [hany])]

theorem add_objects_cons (camp : Camp) (o : ColorObject) (objs : List ColorObject) :
    add_objects camp (o :: objs) =
      (campAddObject camp o) >>= fun camp2 => add_objects camp2 objs := by
  simp only [add_objects]
  rw [List.foldlM_cons]

theorem add_objects_append (camp : Camp) (l1 l2 : List ColorObject) :
    add_objects camp (l1 ++ l2) =
      add_objects camp l1 >>= fun camp2 => add_objects camp2 l2 := by
  simp only [add_objects]
  rw [List.foldlM_append]

theorem mapM_map_except {α β γ : Type} (f : α → Except Err β) (g : β → γ) (l : List α)
    {bs : List β} (h : l.mapM f = .ok bs) :
    l.mapM (fun a => (f a).map g) = .ok (bs.map g) := by
  induction l generalizing bs with
  | nil =>
      have hb : bs = [] := by
        have : (Except.ok [] : Except Err (List β)) = .ok bs := h
        exact (Except.ok.inj this).symm
      subst hb
      rfl
  | cons a l ih =>
      rw [List.mapM_cons] at h
      cases hfa : f a with
      | error e => rw [hfa, except_bind_error] at h; exact absurd h (by simp)
      | ok b =>
          rw [hfa, except_bind_ok] at h
          cases hml : l.mapM f with
          | error e => rw [hml, except_bind_error] at h; exact absurd h (by simp)
          | ok bs2 =>
              rw [hml, except_bind_ok] at h
              have hb : bs = b :: bs2 := (Except.ok.inj h).symm
              subst hb
              rw [List.mapM_cons]
              have : (f a).map g = .ok (g b) := by rw [hfa]; rfl
              rw [this, except_bind_ok, ih hml, except_bind_ok]
              rfl

theorem from_dict_palettes_list {ps : List Palette} (h : ps.all paletteGood = true) :
    ∃ ps2, (ps.map paletteToDict).mapM (fun pd => palette_from_dict pd defaultColorSpace) =
        .ok ps2 ∧
      palettesBucketEq ps2 ps = true ∧ ps2.map Palette.name = ps.map Palette.name := by
  induction ps with
  | nil => exact ⟨[], rfl, rfl, rfl⟩
  | cons p ps ih =>
      simp only [List.all_cons, Bool.and_eq_true] at h
      obtain ⟨p2, hp2, hbeq, hname⟩ := palette_from_dict_good h.1
      obtain ⟨ps2, hps2, heq, hnames⟩ := ih h.2
      refine ⟨p2 :: ps2, ?_, ?_, ?_⟩
      · simp only [List.map_cons, List.mapM_cons, hp2, hps2, except_bind_ok]
        rfl
      · rw [palettesBucketEq] at heq ⊢
        simp only [Bool.and_eq_true, decide_eq_true_eq] at heq ⊢
        refine ⟨by simp [heq.1], ?_⟩
        simp only [List.zip_cons_cons, List.all_cons, Bool.and_eq_true, decide_eq_true_eq]
        exact ⟨⟨hbeq, hname⟩, heq.2⟩
      · simp [hname, hnames]

theorem from_dict_scales_list {ps : List Scale} (h : ps.all scaleGood = true) :
    ∃ ps2, (ps.map scaleToDict).mapM (fun pd => scale_from_dict pd defaultColorSpace) =
        .ok ps2 ∧
      scalesBucketEq ps2 ps = true ∧ ps2.map Scale.name = ps.map Scale.name := by
  induction ps with
  | nil => exact ⟨[], rfl, rfl, rfl⟩
  | cons p ps ih =>
      simp only [List.all_cons, Bool.and_eq_true] at h
      obtain ⟨p2, hp2, hbeq, hname⟩ := scale_from_dict_good h.1
      obtain ⟨ps2, hps2, heq, hnames⟩ := ih h.2
      refine ⟨p2 :: ps2, ?_, ?_, ?_⟩
      · simp only [List.map_cons, List.mapM_cons, hp2, hps2, except_bind_ok]
        rfl
      · rw [scalesBucketEq] at heq ⊢
        simp only [Bool.and_eq_true, decide_eq_true_eq] at heq ⊢
        refine ⟨by simp [heq.1], ?_⟩
        simp only [List.zip_cons_cons, List.all_cons, Bool.and_eq_true, decide_eq_true_eq]
        exact ⟨⟨hbeq, hname⟩, heq.2⟩
      · simp [hname, hnames]

theorem from_dict_maps_list {ps : List ColorMap} (h : ps.all mapGood = true) :
    ∃ ps2, (ps.map mapToDict).mapM (fun pd => map_from_dict pd defaultColorSpace) =
        .ok ps2 ∧
      mapsBucketEq ps2 ps = true ∧ ps2.map ColorMap.name = ps.map ColorMap.name := by
  induction ps with
  | nil => exact ⟨[], rfl, rfl, rfl⟩
  | cons p ps ih =>
      simp only [List.all_cons, Bool.and_eq_true] at h
      obtain ⟨p2, hp2, hbeq, hname⟩ := map_from_dict_good h.1
      obtain ⟨ps2, hps2, heq, hnames⟩ := ih h.2
      refine ⟨p2 :: ps2, ?_, ?_, ?_⟩
      · simp only [List.map_cons, List.mapM_cons, hp2, hps2, except_bind_ok]
        rfl
      · rw [mapsBucketEq] at heq ⊢
        simp only [Bool.and_eq_true, decide_eq_true_eq] at heq ⊢
        refine ⟨by simp [heq.1], ?_⟩
        simp only [List.zip_cons_cons, List.all_cons, Bool.and_eq_true, decide_eq_true_eq]
        exact ⟨⟨hbeq, hname⟩, heq.2⟩
      · simp [hname, hnames]

theorem namesDistinct_cons (n : Option String) (ns : List (Option String)) :
    namesDistinct (n :: ns) =
      (n.isSome && ns.all (fun m => decide (m ≠ n)) && namesDistinct ns) := rfl

theorem campAddObject_colors_one {camp : Camp} {c : Color} {b : List Color}
    (h : bucketAdd Color.name camp.colors c = .ok b) :
    campAddObject camp (.colorO c) = .ok { camp with colors := b } := by
  show (do
    let b2 ← bucketAdd Color.name camp.colors c
    pure { camp with colors := b2 } : Except Err Camp) = _
  rw [h, except_bind_ok]
  rfl

theorem add_objects_colors (cs : List Color) (camp : Camp)
    (h1 : namesDistinct (cs.map Color.name) = true)
    (h2 : ∀ c ∈ cs, camp.colors.all (fun x => decide (x.name ≠ c.name)) = true) :
    add_objects camp (cs.map .colorO) = .ok { camp with colors := camp.colors ++ cs } := by
  induction cs generalizing camp with
  | nil =>
      show Except.ok camp = _
      rw [List.append_nil]
  | cons c cs ih =>
      rw [List.map_cons, namesDistinct_cons] at h1
      simp only [Bool.and_eq_true] at h1
      obtain ⟨⟨hsome, hfreshcs⟩, hnd⟩ := h1
      obtain ⟨n, hn⟩ := Option.isSome_iff_exists.mp hsome
      rw [List.map_cons, add_objects_cons]
      rw [campAddObject_colors_one (bucketAdd_ok Color.name camp.colors c hn (h2 c (by simp)))]
      rw [except_bind_ok]
      have hnew : ∀ y ∈ cs,
          ({ camp with colors := camp.colors ++ [c] } : Camp).colors.all
            (fun x => decide (x.name ≠ y.name)) = true := by
        intro y hy
        show (camp.colors ++ [c]).all (fun x => decide (x.name ≠ y.name)) = true
        rw [List.all_append]
        have hyc : Color.name c ≠ Color.name y := by
          have := (List.all_eq_true.mp hfreshcs) (Color.name y)
            (List.mem_map_of_mem Color.name hy)
          simp only [decide_eq_true_eq] at this
          exact fun hc => this hc.symm
        have hcampy := h2 y (List.mem_cons_of_mem c hy)
        rw [hcampy]
        simp [List.all_cons, hyc]
      rw [ih _ hnd hnew]
      show _ = Except.ok { camp with colors := camp.colors ++ c :: cs }
      rw [show (camp.colors ++ [c]) ++ cs = camp.colors ++ c :: cs by
        rw [List.append_assoc]
        rfl]

theorem campAddObject_palettes_one {camp : Camp} {c : Palette} {b : List Palette}
    (h : bucketAdd Palette.name camp.palettes c = .ok b) :
    campAddObject camp (.paletteO c) = .ok { camp with palettes := b } := by
  show (do
    let b2 ← bucketAdd Palette.name camp.palettes c
    pure { camp with palettes := b2 } : Except Err Camp) = _
  rw [h, except_bind_ok]
  rfl

theorem add_objects_palettes (cs : List Palette) (camp : Camp)
    (h1 : namesDistinct (cs.map Palette.name) = true)
    (h2 : ∀ c ∈ cs, camp.palettes.all (fun x => decide (x.name ≠ c.name)) = true) :
    add_objects camp (cs.map .paletteO) = .ok { camp with palettes := camp.palettes ++ cs } := by
  induction cs generalizing camp with
  | nil =>
      show Except.ok camp = _
      rw [List.append_nil]
  | cons c cs ih =>
      rw [List.map_cons, namesDistinct_cons] at h1
      simp only [Bool.and_eq_true] at h1
      obtain ⟨⟨hsome, hfreshcs⟩, hnd⟩ := h1
      obtain ⟨n, hn⟩ := Option.isSome_iff_exists.mp hsome
      rw [List.map_cons, add_objects_cons]
      rw [campAddObject_palettes_one (bucketAdd_ok Palette.name camp.palettes c hn (h2 c (by simp)))]
      rw [except_bind_ok]
      have hnew : ∀ y ∈ cs,
          ({ camp with palettes := camp.palettes ++ [c] } : Camp).palettes.all
            (fun x => decide (x.name ≠ y.name)) = true := by
        intro y hy
        show (camp.palettes ++ [c]).all (fun x => decide (x.name ≠ y.name)) = true
        rw [List.all_append]
        have hyc : Palette.name c ≠ Palette.name y := by
          have := (List.all_eq_true.mp hfreshcs) (Palette.name y)
            (List.mem_map_of_mem Palette.name hy)
          simp only [decide_eq_true_eq] at this
          exact fun hc => this hc.symm
        have hcampy := h2 y (List.mem_cons_of_mem c hy)
        rw [hcampy]
        simp [List.all_cons, hyc]
      rw [ih _ hnd hnew]
      show _ = Except.ok { camp with palettes := camp.palettes ++ c :: cs }
      rw [show (camp.palettes ++ [c]) ++ cs = camp.palettes ++ c :: cs by
        rw [List.append_assoc]
        rfl]

theorem campAddObject_scales_one {camp : Camp} {c : Scale} {b : List Scale}
    (h : bucketAdd Scale.name camp.scales c = .ok b) :
    campAddObject camp (.scaleO c) = .ok { camp with scales := b } := by
  show (do
    let b2 ← bucketAdd Scale.name camp.scales c
    pure { camp with scales := b2 } : Except Err Camp) = _
  rw [h, except_bind_ok]
  rfl

theorem add_objects_scales (cs : List Scale) (camp : Camp)
    (h1 : namesDistinct (cs.map Scale.name) = true)
    (h2 : ∀ c ∈ cs, camp.scales.all (fun x => decide (x.name ≠ c.name)) = true) :
    add_objects camp (cs.map .scaleO) = .ok { camp with scales := camp.scales ++ cs } := by
  induction cs generalizing camp with
  | nil =>
      show Except.ok camp = _
      rw [List.append_nil]
  | cons c cs ih =>
      rw [List.map_cons, namesDistinct_cons] at h1
      simp only [Bool.and_eq_true] at h1
      obtain ⟨⟨hsome, hfreshcs⟩, hnd⟩ := h1
      obtain ⟨n, hn⟩ := Option.isSome_iff_exists.mp hsome
      rw [List.map_cons, add_objects_cons]
      rw [campAddObject_scales_one (bucketAdd_ok Scale.name camp.scales c hn (h2 c (by simp)))]
      rw [except_bind_ok]
      have hnew : ∀ y ∈ cs,
          ({ camp with scales := camp.scales ++ [c] } : Camp).scales.all
            (fun x => decide (x.name ≠ y.name)) = true := by
        intro y hy
        show (camp.scales ++ [c]).all (fun x => decide (x.name ≠ y.name)) = true
        rw [List.all_append]
        have hyc : Scale.name c ≠ Scale.name y := by
          have := (List.all_eq_true.mp hfreshcs) (Scale.name y)
            (List.mem_map_of_mem Scale.name hy)
          simp only [decide_eq_true_eq] at this
          exact fun hc => this hc.symm
        have hcampy := h2 y (List.mem_cons_of_mem c hy)
        rw [hcampy]
        simp [List.all_cons, hyc]
      rw [ih _ hnd hnew]
      show _ = Except.ok { camp with scales := camp.scales ++ c :: cs }
      rw [show (camp.scales ++ [c]) ++ cs = camp.scales ++ c :: cs by
        rw [List.append_assoc]
        rfl]

theorem campAddObject_maps_one {camp : Camp} {c : ColorMap} {b : List ColorMap}
    (h : bucketAdd ColorMap.name camp.maps c = .ok b) :
    campAddObject camp (.mapO c) = .ok { camp with maps := b } := by
  show (do
    let b2 ← bucketAdd ColorMap.name camp.maps c
    pure { camp with maps := b2 } : Except Err Camp) = _
  rw [h, except_bind_ok]
  rfl

theorem add_objects_maps (cs : List ColorMap) (camp : Camp)
    (h1 : namesDistinct (cs.map ColorMap.name) = true)
    (h2 : ∀ c ∈ cs, camp.maps.all (fun x => decide (x.name ≠ c.name)) = true) :
    add_objects camp (cs.map .mapO) = .ok { camp with maps := camp.maps ++ cs } := by
  induction cs generalizing camp with
  | nil =>
      show Except.ok camp = _
      rw [List.append_nil]
  | cons c cs ih =>
      rw [List.map_cons, namesDistinct_cons] at h1
      simp only [Bool.and_eq_true] at h1
      obtain ⟨⟨hsome, hfreshcs⟩, hnd⟩ := h1
      obtain ⟨n, hn⟩ := Option.isSome_iff_exists.mp hsome
      rw [List.map_cons, add_objects_cons]
      rw [campAddObject_maps_one (bucketAdd_ok ColorMap.name camp.maps c hn (h2 c (by simp)))]
      rw [except_bind_ok]
      have hnew : ∀ y ∈ cs,
          ({ camp with maps := camp.maps ++ [c] } : Camp).maps.all
            (fun x => decide (x.name ≠ y.name)) = true := by
        intro y hy
        show (camp.maps ++ [c]).all (fun x => decide (x.name ≠ y.name)) = true
        rw [List.all_append]
        have hyc : ColorMap.name c ≠ ColorMap.name y := by
          have := (List.all_eq_true.mp hfreshcs) (ColorMap.name y)
            (List.mem_map_of_mem ColorMap.name hy)
          simp only [decide_eq_true_eq] at this
          exact fun hc => this hc.symm
        have hcampy := h2 y (List.mem_cons_of_mem c hy)
        rw [hcampy]
        simp [List.all_cons, hyc]
      rw [ih _ hnd hnew]
      show _ = Except.ok { camp with maps := camp.maps ++ c :: cs }
      rw [show (camp.maps ++ [c]) ++ cs = camp.maps ++ c :: cs by
        rw [List.append_assoc]
        rfl]

/-- Deserializing a camp dictionary back through `Camp.from_dict` (with no
color-space argument, hence `settings.default_color_space = Hex`) succeeds
on a camp whose Color Values are all `Hex`, and yields bucket-wise
`==`-equal, identically named objects. -/
theorem camp_from_dict_toDict {camp : Camp} (hg : campGood camp = true) :
    ∃ camp2, camp_from_dict (campToDict camp) none = .ok camp2 ∧
      campEqObjects camp2 camp = true := by
  rw [campGood] at hg
  simp only [Bool.and_eq_true] at hg
  obtain ⟨⟨⟨⟨⟨⟨⟨⟨⟨hnm, hdesc⟩, hcg⟩, hcnd⟩, hpg⟩, hpnd⟩, hsg⟩, hsnd⟩, hmg⟩, hmnd⟩ := hg
  obtain ⟨cs2, hcs2, hceq, hcnames⟩ := from_dict_colors_list hcg
  obtain ⟨ps2, hps2, hpeq, hpnames⟩ := from_dict_palettes_list hpg
  obtain ⟨ss2, hss2, hseq, hsnames⟩ := from_dict_scales_list hsg
  obtain ⟨ms2, hms2, hmeq, hmnames⟩ := from_dict_maps_list hmg
  have hcnd2 : namesDistinct (cs2.map Color.name) = true := by rw [hcnames]; exact hcnd
  have hpnd2 : namesDistinct (ps2.map Palette.name) = true := by rw [hpnames]; exact hpnd
  have hsnd2 : namesDistinct (ss2.map Scale.name) = true := by rw [hsnames]; exact hsnd
  have hmnd2 : namesDistinct (ms2.map ColorMap.name) = true := by rw [hmnames]; exact hmnd
  refine ⟨⟨camp.name, camp.description, cs2, ps2, ss2, ms2⟩, ?_, ?_⟩
  · show (do
      let colorObjs ← (camp.colors.map colorToDict).mapM
        (fun cd => (color_from_dict cd defaultColorSpace).map ColorObject.colorO)
      let palObjs ← (camp.palettes.map paletteToDict).mapM
        (fun pd => (palette_from_dict pd defaultColorSpace).map ColorObject.paletteO)
      let scaleObjs ← (camp.scales.map scaleToDict).mapM
        (fun sd => (scale_from_dict sd defaultColorSpace).map ColorObject.scaleO)
      let mapObjs ← (camp.maps.map mapToDict).mapM
        (fun md => (map_from_dict md defaultColorSpace).map ColorObject.mapO)
      let newCamp ← campInit camp.name camp.description
      add_objects newCamp (colorObjs ++ palObjs ++ scaleObjs ++ mapObjs)
      : Except Err Camp) = _
    rw [mapM_map_except _ ColorObject.colorO _ hcs2]
    simp only [except_bind_ok]
    rw [mapM_map_except _ ColorObject.paletteO _ hps2]
    simp only [except_bind_ok]
    rw [mapM_map_except _ ColorObject.scaleO _ hss2]
    simp only [except_bind_ok]
    rw [mapM_map_except _ ColorObject.mapO _ hms2]
    simp only [except_bind_ok]
    rw [campInit, if_neg (by simp [hnm]), if_neg (by simp [hdesc])]
    simp only [except_bind_ok]
    have e1 : add_objects ⟨camp.name, camp.description, [], [], [], []⟩
        (cs2.map ColorObject.colorO) =
        .ok ⟨camp.name, camp.description, cs2, [], [], []⟩ :=
      add_objects_colors cs2 ⟨camp.name, camp.description, [], [], [], []⟩ hcnd2
        (fun c hc => rfl)
    have e2 : add_objects ⟨camp.name, camp.description, cs2, [], [], []⟩
        (ps2.map ColorObject.paletteO) =
        .ok ⟨camp.name, camp.description, cs2, ps2, [], []⟩ :=
      add_objects_palettes ps2 ⟨camp.name, camp.description, cs2, [], [], []⟩ hpnd2
        (fun c hc => rfl)
    have e3 : add_objects ⟨camp.name, camp.description, cs2, ps2, [], []⟩
        (ss2.map ColorObject.scaleO) =
        .ok ⟨camp.name, camp.description, cs2, ps2, ss2, []⟩ :=
      add_objects_scales ss2 ⟨camp.name, camp.description, cs2, ps2, [], []⟩ hsnd2
        (fun c hc => rfl)
    have e4 : add_objects ⟨camp.name, camp.description, cs2, ps2, ss2, []⟩
        (ms2.map ColorObject.mapO) =
        .ok ⟨camp.name, camp.description, cs2, ps2, ss2, ms2⟩ :=
      add_objects_maps ms2 ⟨camp.name, camp.description, cs2, ps2, ss2, []⟩ hmnd2
        (fun c hc => rfl)
    rw [add_objects_append, add_objects_append, add_objects_append, e1]
    simp only [except_bind_ok]
    rw [e2]
    simp only [except_bind_ok]
    rw [e3]
    simp only [except_bind_ok]
    rw [e4]
  · rw [campEqObjects]
    simp only [Bool.and_eq_true]
    exact ⟨⟨⟨hceq, hpeq⟩, hseq⟩, hmeq⟩

/-- C2 (amended): save/load fidelity holds for camps whose Color Values
are already in the default color space (`Hex`): if `campGood camp` (all
colors `Hex`, valid metadata, bucket-unique names, well-formed groups) and
`camp.save(directory)` succeeds, then `Camp.load(camp.name, directory)`
succeeds and every originally added Color Value and Group compares equal
(`==`, with equal names) to the correspondingly positioned object of the
loaded camp.  The unamended claim — fidelity *regardless of which
representation the originals used* — is false (`claim_C2_counterexample`):
`load` funnels every stored object through
`settings.default_color_space = "Hex"`, and `BaseColor.__eq__` compares
native representations, so an original `RGB` color never equals its
reloaded `Hex` counterpart. -/
theorem claim_C2_saveload (camp : Camp) (fs fsOut : FileSystem) (directory : String)
    (hg : campGood camp = true)
    (hsave : camp_save fs camp directory false = .ok fsOut) :
    ∃ camp2, camp_load fsOut camp.name directory = .ok camp2 ∧
      campEqObjects camp2 camp = true := by
  rw [camp_save, dump_json] at hsave
  split at hsave
  · exact absurd hsave (by simp)
  · have hfs : fsOut = fsWrite fs (campPath directory camp.name) (campToDict camp) :=
      (Except.ok.inj hsave).symm
    subst hfs
    have hget : fsGet (fsWrite fs (campPath directory camp.name) (campToDict camp))
        (campPath directory camp.name) = some (campToDict camp) := by
      rw [fsWrite, fsGet, List.lookup]
      simp
    rw [camp_load, hget]
    exact camp_from_dict_toDict hg

/-- A one-color camp holding `RGB((255, 21, 170))` named `"pink"`. -/
def campRgbW : Camp :=
  ⟨"brand", none, [⟨(1, 21/255, 170/255), none, .rgbS [255, 21, 170], some "pink", none⟩],
    [], [], []⟩

/-- The same camp with the color as `Hex("#FF15AA")` instead. -/
def campHexW : Camp :=
  ⟨"brand", none, [⟨(1, 21/255, 170/255), none, .hexS "#FF15AA", some "pink", none⟩],
    [], [], []⟩

/-- C2 counterexample: a camp holding the single RGB color
`RGB((255, 21, 170), name="pink")` saves fine, but the loaded camp holds
`Hex("#FF15AA")` — `==` (native comparison `(255, 21, 170) == "#FF15AA"`)
is `False`, refuting save/load fidelity for non-default representations. -/
theorem claim_C2_counterexample :
    ((camp_save [] campRgbW "proj" false).bind
        (fun fsOut => camp_load fsOut "brand" "proj")).map
      (fun c2 => (campEqObjects c2 campRgbW, c2.colors.map Color.native)) =
      .ok (false, [PyVal.str "#FF15AA"]) := by
  with_unfolding_all decide

/-- C2 witness: the amended round trip at a concrete camp of one Hex
color. -/
theorem claim_C2_witness :
    campGood campHexW = true ∧
    ∃ camp2,
      camp_load (fsWrite [] (campPath "proj" "brand") (campToDict campHexW)) "brand" "proj" =
        .ok camp2 ∧ campEqObjects camp2 campHexW = true :=
  ⟨by with_unfolding_all decide,
   claim_C2_saveload campHexW [] _ "proj" (by with_unfolding_all decide)
     (by with_unfolding_all rfl)⟩

end ColorCamp
